import Mathlib

/-!
Verification of the Weber.jl sound engine core (`src/weber_sound.c`).

This file is a shallow embedding of the C source into Lean 4.  Machine
`int` fields become `ℤ`, `PaTime` (a `double` used only for exact
scheduling arithmetic) is modelled as `ℚ`, pointers into ring-buffer
slots become `Option` values in a `List`, and the real-time callback's
loops become fuelled structural recursion (the fuel given to the loop
strictly exceeds the number of iterations the C loop can perform on any
well-formed state, and exhausting fuel merely returns the current state,
which is sound for every invariant proved here).  Mixing into the output
buffer is recorded as a list of `MixSeg` segments: the C inner `for`
loop adds samples `off, off+1, …` of the current sound into consecutive
output frames `zp, zp+1, …`; a segment records exactly that triple
(first output frame, first sample index, number of frames mixed), which
is a lossless description of the additive writes the loop performs.
-/

namespace Weber

/-- `TimedSound` (C struct, weber_sound.c lines 27–32): a scheduled sound.
`slen` is `len` (the frame count), `start` the target start time
(`start ≤ 0` is the "ASAP" sentinel), `offset` the consumption offset. -/
structure TimedSound where
  slen : ℤ
  start : ℚ
  offset : ℤ
  deriving Repr, DecidableEq

/-- `newTimedSound` (lines 34–40): wrap a sound of length `slen` with a
start time; the consumption offset starts at 0. -/
def newTimedSound (slen : ℤ) (start : ℚ) : TimedSound :=
  ⟨slen, start, 0⟩

/-- `Sounds` (lines 42–49): one channel queue — a fixed ring of optional
scheduled-sound slots plus pause flag, consumer/producer indices and the
advisory `done_at` instant. -/
structure Sounds where
  data : List (Option TimedSound)
  paused : Bool
  consumer_index : ℕ
  producer_index : ℕ
  done_at : ℚ
  deriving Repr, DecidableEq

/-- The slot at the consumer index (`sounds->data[sounds->consumer_index]`);
`none` both for an empty slot and for an out-of-range index. -/
def headSlot (s : Sounds) : Option TimedSound :=
  (s.data.get? s.consumer_index).join

/-- The slot at the producer index (`sounds->data[sounds->producer_index]`). -/
def prodSlot (s : Sounds) : Option TimedSound :=
  (s.data.get? s.producer_index).join

/-- One contiguous run of additive mixing performed by the callback's inner
`for` loop (lines 178–181): sample `off + k` of the current sound is added
into output frame `zp + k`, for `k < cnt`. -/
structure MixSeg where
  zp : ℤ
  off : ℤ
  cnt : ℕ
  deriving Repr, DecidableEq

/-- State threaded through the consumer `while` loop of `ws_callback`
(lines 150–193): the channel queue, the output cursor `outi`, the current
`zero_padding`, the callback-wide `should_start` flag, the channel-set
`playback_error` field and the mix segments recorded so far. -/
structure LoopSt where
  s : Sounds
  outi : ℤ
  zp : ℤ
  ss : Bool
  pe : ℤ
  segs : List MixSeg
  deriving Repr, DecidableEq

/-- Result of the `sound->offset == 0` start-determination block
(lines 151–173): new cursor, zero padding, should-start flag,
playback-error field and channel `done_at`. -/
structure StartOut where
  outi : ℤ
  zp : ℤ
  ss : Bool
  pe : ℤ
  da : ℚ
  deriving Repr, DecidableEq

/-- The start-determination block (lines 151–173) of `ws_callback`.
If the head sound has not started consuming (`offset = 0`):
with an explicit start (`start > 0`), if due in this buffer compute
`zero_padding = ⌊(start − buffer_start)·samplerate⌋` and clamp it to the
cursor (recording the lateness into `playback_error`) when the intended
start already passed; if not due set the cursor to `len`.  An ASAP start
(`start ≤ 0`) starts at the cursor.  `done_at` is updated exactly as the
source does in each branch (the ASAP branch reads the stale
`zero_padding` before overwriting it, as in lines 168–170). -/
def startPhase (sr sl bs : ℚ) (len : ℕ) (snd : TimedSound)
    (outi zp : ℤ) (ss : Bool) (pe : ℤ) (da : ℚ) : StartOut :=
  if snd.offset = 0 then
    if 0 < snd.start then
      if snd.start < bs + sl * (len : ℚ) then
        let z : ℤ := Int.floor ((snd.start - bs) * sr)
        if z < outi then
          ⟨outi, outi, true, z - outi, bs + (outi : ℚ) * sl + (snd.slen : ℚ) * sl⟩
        else
          ⟨outi, z, true, pe, snd.start + (snd.slen : ℚ) * sl⟩
      else ⟨(len : ℤ), zp, ss, pe, da⟩
    else ⟨outi, outi, true, pe, bs + (zp : ℚ) * sl + (snd.slen : ℚ) * sl⟩
  else ⟨outi, zp, ss, pe, da⟩

/-- Final value of the cursor after the inner mixing `for` loop
(line 178): the loop starts at `zp` and stops as soon as the cursor
reaches `len` or `cursor − zp` reaches `slen − off`. -/
def finalOuti (len : ℕ) (zp slen off : ℤ) : ℤ :=
  max zp (min (len : ℤ) (zp + (slen - off)))

/-- Remove the head sound and advance the consumer index (lines 186–192):
the slot is cleared and `consumer_index` advances modulo the capacity. -/
def freeHead (s : Sounds) : Sounds :=
  { s with data := s.data.set s.consumer_index none,
           consumer_index :=
             if s.consumer_index + 1 = s.data.length then 0
             else s.consumer_index + 1 }

/-- One iteration of the consumer `while` loop body (lines 151–192) on a
non-empty head `snd` with the cursor still short of `len`: run the
start-determination block, then — when
`(offset > 0 ∨ should_start) ∧ offset < slen` (line 177) — mix
`finalOuti − zp` frames and set `offset := len − zp + offset` (line 182),
and finally free the head when `offset ≥ slen` (lines 186–192). -/
def loopBody (sr sl bs : ℚ) (len : ℕ) (st : LoopSt) (snd : TimedSound) : LoopSt :=
  let p := startPhase sr sl bs len snd st.outi st.zp st.ss st.pe st.s.done_at
  let off := snd.offset
  let s1 : Sounds := { st.s with done_at := p.da }
  if (0 < off ∨ p.ss = true) ∧ off < snd.slen then
    let fo := finalOuti len p.zp snd.slen off
    let snd1 : TimedSound := { snd with offset := (len : ℤ) - p.zp + off }
    let s2 : Sounds :=
      { s1 with data := s1.data.set s1.consumer_index (some snd1) }
    let segs1 := st.segs ++ [⟨p.zp, off, (fo - p.zp).toNat⟩]
    if snd.slen ≤ snd1.offset then ⟨freeHead s2, fo, p.zp, p.ss, p.pe, segs1⟩
    else ⟨s2, fo, p.zp, p.ss, p.pe, segs1⟩
  else
    if snd.slen ≤ off then ⟨freeHead s1, p.outi, p.zp, p.ss, p.pe, st.segs⟩
    else ⟨s1, p.outi, p.zp, p.ss, p.pe, st.segs⟩

/-- The consumer `while` loop of `ws_callback` (lines 150–193), one channel.
Each iteration reads the head slot (stop when empty or when the cursor
has reached `len`) and runs `loopBody`.  Fuel bounds the recursion;
every loop exit in the source corresponds to a non-recursing branch
here. -/
def chanLoop (sr sl bs : ℚ) (len : ℕ) : ℕ → LoopSt → LoopSt
  | 0, st => st
  | fuel+1, st =>
    match headSlot st.s with
    | none => st
    | some snd =>
      if st.outi < (len : ℤ) then
        chanLoop sr sl bs len fuel (loopBody sr sl bs len st snd)
      else st

/-- Result of processing one channel inside the callback. -/
structure ChanOut where
  s : Sounds
  ss : Bool
  pe : ℤ
  segs : List MixSeg
  deriving Repr, DecidableEq

/-- Per-channel body of `ws_callback` (lines 138–193): paused channels are
skipped (line 141); if the head slot is empty, `done_at` is pushed to the
end of this buffer (lines 148–149); then the consumer loop runs with
cursor and zero padding reset to 0.  `ss`/`pe` are the callback-wide
`should_start` flag and the channel-set `playback_error` field. -/
def chanStep (sr sl bs : ℚ) (len : ℕ) (s : Sounds) (ss : Bool) (pe : ℤ) : ChanOut :=
  if s.paused then ⟨s, ss, pe, []⟩
  else
    let s1 := if headSlot s = none then { s with done_at := bs + sl * (len : ℚ) } else s
    let r := chanLoop sr sl bs len (s1.data.length + 1) ⟨s1, 0, 0, ss, pe, []⟩
    ⟨r.s, r.ss, r.pe, r.segs⟩

/-- `Channels` (lines 74–83): the channel set. -/
structure Channels where
  data : List Sounds
  playback_error : ℤ
  last_buffer_size : ℕ
  last_latency : ℚ
  samplerate : ℚ
  samplelen : ℚ
  deriving Repr, DecidableEq

/-- Accumulated result of the channel loop of `ws_callback`. -/
structure CBOut where
  chans : List Sounds
  ss : Bool
  pe : ℤ
  segs : List (List MixSeg)
  deriving Repr, DecidableEq

/-- The `for` loop over channels in `ws_callback` (lines 138–194),
threading the shared `should_start` flag (declared once for the whole
invocation, line 126, and never reset) and `playback_error` through the
channels in order; collects each channel's mix segments. -/
def callbackChans (sr sl bs : ℚ) (len : ℕ) : List Sounds → Bool → ℤ → CBOut
  | [], ss, pe => ⟨[], ss, pe, []⟩
  | s :: rest, ss, pe =>
    let o := chanStep sr sl bs len s ss pe
    let r := callbackChans sr sl bs len rest o.ss o.pe
    ⟨o.s :: r.chans, r.ss, r.pe, o.segs :: r.segs⟩

/-- `ws_callback` (lines 120–196): one invocation of the real-time mixing
callback with buffer start instant `bs`, current time `cur` and buffer
length `len` frames.  The output buffer is zeroed first (lines 130–133);
its final contents are the sum of the returned mix segments, which is
what this model records.  Also records `last_latency = bs − cur` and
`last_buffer_size = len` (lines 135–136). -/
def ws_callback (bs cur : ℚ) (len : ℕ) (c : Channels) : Channels × List (List MixSeg) :=
  let r := callbackChans c.samplerate c.samplelen bs len c.data false c.playback_error
  ({ c with data := r.chans, playback_error := r.pe,
            last_latency := bs - cur, last_buffer_size := len }, r.segs)

/-- `WsState` (lines 111–116) restricted to the fields the play/pause
operations touch (the PortAudio stream handle and backend error code are
external collaborators; the stream clock sample `Pa_GetStreamTime` is
passed to each operation as an explicit `pa_now` argument). -/
structure WsState where
  channels : Channels
  weber_error : ℤ
  deriving Repr, DecidableEq

/-- `NO_CHANNELS` (line 20): the "no channel available" domain error code. -/
def NO_CHANNELS : ℤ := -2

/-- `min_done_at > done_at` with `min_done_at` initially `INFINITY`
(line 208): `none` plays the role of `INFINITY`. -/
def mdGT : Option ℚ → ℚ → Bool
  | none, _ => true
  | some m, d => decide (d < m)

/-- Pair each element of a list with its index, starting at `n`
(the loop counter `i` of the channel-selection loop). -/
def idxd : ℕ → List Sounds → List (ℕ × Sounds)
  | _, [] => []
  | n, s :: rest => (n, s) :: idxd (n + 1) rest

/-- The channel-selection loop of `ws_play` (lines 207–217): skip paused
channels and channels whose producer slot is occupied; among the rest
keep the index with the strictly smallest `done_at`. -/
def selectLoop : List (ℕ × Sounds) → ℤ × Option ℚ → ℤ × Option ℚ
  | [], acc => acc
  | (i, s) :: rest, (ch, md) =>
    if s.paused then selectLoop rest (ch, md)
    else if (prodSlot s).isSome then selectLoop rest (ch, md)
    else if mdGT md s.done_at then selectLoop rest ((i : ℤ), some s.done_at)
    else selectLoop rest (ch, md)

/-- Store a sound in the producer slot and advance the producer index
modulo capacity (lines 228, 236–238).  Note the source performs the store
unconditionally — there is no occupancy check here. -/
def enqueueAt (s : Sounds) (snd : TimedSound) : Sounds :=
  { s with data := s.data.set s.producer_index (some snd),
           producer_index :=
             if s.producer_index + 1 = s.data.length then 0
             else s.producer_index + 1 }

/-- `ws_play` (lines 198–243): schedule `toplayLen` frames at caller
instant `playat` (caller clock value `now`, stream clock value `pa_now`),
on channel `channel`, or on an automatically selected one-shot channel
when `channel < 0`.  Returns `none` only for an out-of-range explicit
channel (undefined behaviour in the source); otherwise the new state and
the C return value. -/
def ws_play (now playat : ℚ) (channel : ℤ) (toplayLen : ℤ) (pa_now : ℚ)
    (st : WsState) : Option (WsState × ℤ) :=
  let time := (pa_now - now) + playat
  let snd := newTimedSound toplayLen time
  let ch : ℤ :=
    if channel < 0 then
      (selectLoop (idxd 0 (st.channels.data.take (st.channels.data.length / 2)))
        (channel, none)).1
    else channel
  if ch < 0 then some ({ st with weber_error := NO_CHANNELS }, -1)
  else
    match st.channels.data.get? ch.toNat with
    | none => none
    | some s =>
      some ({ st with channels :=
        { st.channels with
            data := st.channels.data.set ch.toNat (enqueueAt s snd) } }, ch)

/-- `ws_play_next` (lines 250–279): streaming enqueue on streaming channel
`channel` (actual index `length/2 + channel`).  If the channel is paused,
force-complete the sound at the consumer slot (`offset := len`) and clear
the pause flag (lines 261–265) — when that slot is empty the source
dereferences a null pointer, modelled as `none`.  Then enqueue the new
ASAP sound if the producer slot is free, returning the predicted finish
instant `(done_at + toplayLen·samplelen − pa_now) + now`, else return the
sentinel `-1`. -/
def ws_play_next (now : ℚ) (channel : ℕ) (toplayLen : ℤ) (pa_now : ℚ)
    (st : WsState) : Option (WsState × ℚ) :=
  let chans := st.channels
  let ch := chans.data.length / 2 + channel
  let snd := newTimedSound toplayLen (-1)
  match chans.data.get? ch with
  | none => none
  | some s0 =>
    let unp : Option Sounds :=
      if s0.paused then
        match headSlot s0 with
        | none => none
        | some ps =>
          some { s0 with
                   data := s0.data.set s0.consumer_index
                     (some { ps with offset := ps.slen }),
                   paused := false }
      else some s0
    match unp with
    | none => none
    | some s =>
      let da := s.done_at + (toplayLen : ℚ) * chans.samplelen
      if prodSlot s = none then
        some ({ st with channels :=
          { chans with data := chans.data.set ch (enqueueAt s snd) } },
          (da - pa_now) + now)
      else
        some ({ st with channels :=
          { chans with data := chans.data.set ch s } }, -1)

/-- `ws_pause` (lines 365–376): set the pause flag of one channel, one
streaming channel, or (when `channel < 0`) all channels.  After the
pause-all loop the source still falls through to the single-channel
write; an out-of-range final write (negative or too-large index) is
undefined behaviour in the source and modelled as `none`. -/
def ws_pause (c : Channels) (channel : ℤ) (isstream : Bool) (pause : Bool) :
    Option Channels :=
  let d := if channel < 0 then c.data.map (fun s => { s with paused := pause })
           else c.data
  let idx : ℤ := if isstream then ((c.data.length / 2 : ℕ) : ℤ) + channel else channel
  if idx < 0 ∨ (d.length : ℤ) ≤ idx then none
  else
    match d.get? idx.toNat with
    | none => none
    | some s => some { c with data := d.set idx.toNat { s with paused := pause } }

/-- `ws_warn_str` (lines 281–292): when the sticky `playback_error` field
is negative, return the warning (modelled as `some latency`, the lateness
in seconds that the C code formats into the warning string; `none` models
the empty string) and clear the field; otherwise return the empty string
and leave the state unchanged. -/
def ws_warn_str (c : Channels) : Channels × Option ℚ :=
  if c.playback_error < 0 then
    ({ c with playback_error := 0 },
      some (((-c.playback_error : ℤ) : ℚ) * c.samplelen))
  else (c, none)

/-- Per-slot well-formedness: an occupied slot's consumption offset lies
in `[0, slen]`. -/
def soundOK : Option TimedSound → Bool
  | none => true
  | some t => decide (0 ≤ t.offset) && decide (t.offset ≤ t.slen)

/-- Channel-queue well-formedness: every occupied slot's offset lies in
`[0, slen]` (the spec's invariant `0 ≤ consumedFrames ≤ frameCount`). -/
def WF (s : Sounds) : Prop := ∀ o ∈ s.data, soundOK o = true

/-- The consumer-side evolution relation on a channel's slot array: the
consumer never lengthens the ring, never fills a slot, and only ever
clears a slot or advances the offset of the sound in it (keeping the
sound's length and start time). -/
def Mono (d d' : List (Option TimedSound)) : Prop :=
  d'.length = d.length ∧
  (∀ j t', d'.get? j = some (some t') →
    ∃ t, d.get? j = some (some t) ∧
      t.slen = t'.slen ∧ t.start = t'.start ∧ t.offset ≤ t'.offset) ∧
  (∀ j, d.get? j = some none → d'.get? j = some none)

/-- A one-shot channel `ws_play`'s auto-selection may pick: unpaused with
an empty producer slot (lines 211–212). -/
def Ok (s : Sounds) : Prop := s.paused = false ∧ prodSlot s = none

/-- Channel `i` qualifies for automatic selection: it is a one-shot
channel (first half) that is unpaused with a free producer slot. -/
def Qualifies (c : Channels) (i : ℕ) : Prop :=
  i < c.data.length / 2 ∧ ∃ s, c.data.get? i = some s ∧ Ok s

/-- Run `k` successive callback invocations with contiguous buffers of
`len` frames starting at `T0` (buffer `i` starts at `T0 + i·len·sl`). -/
def runCB (sl T0 : ℚ) (len : ℕ) (c : Channels) : ℕ → Channels
  | 0 => c
  | k+1 =>
    (ws_callback (T0 + (k : ℚ) * (len : ℚ) * sl) (T0 + (k : ℚ) * (len : ℚ) * sl)
      len (runCB sl T0 len c k)).1

/-- The mix segments produced by callback invocation `k` of the schedule
of `runCB`. -/
def segsAt (sl T0 : ℚ) (len : ℕ) (c : Channels) (k : ℕ) : List (List MixSeg) :=
  (ws_callback (T0 + (k : ℚ) * (len : ℚ) * sl) (T0 + (k : ℚ) * (len : ℚ) * sl)
    len (runCB sl T0 len c k)).2

/-- Number of frames mixed by a list of segments. -/
def segCnt (l : List MixSeg) : ℕ := (l.map MixSeg.cnt).sum

/-- Number of frames mixed by one whole callback invocation. -/
def cbCnt (l : List (List MixSeg)) : ℕ := (l.map segCnt).sum

/-- Total number of frames mixed over the first `K` callback invocations. -/
def totalCnt (sl T0 : ℚ) (len : ℕ) (c : Channels) (K : ℕ) : ℕ :=
  (Finset.range K).sum (fun k => cbCnt (segsAt sl T0 len c k))

/-- A channel holding exactly one scheduled sound of `F` frames starting
at `start`, already consumed up to `off` (head of the ring, `m` further
empty slots). -/
def soloChanAt (F : ℕ) (start da : ℚ) (off : ℤ) (m pi : ℕ) : Sounds :=
  ⟨some ⟨(F : ℤ), start, off⟩ :: List.replicate m none, false, 0, pi, da⟩

/-- The channel of `soloChanAt` after its sound has been consumed and
freed: all slots empty, consumer index advanced once around the ring of
capacity `m + 1`. -/
def deadChan (m pi : ℕ) (da : ℚ) : Sounds :=
  ⟨none :: List.replicate m none, false, if 1 = m + 1 then 0 else 1, pi, da⟩

/-- A channel set holding exactly the one channel `soloChanAt` with
nothing consumed yet. -/
def soloSet (sr sl : ℚ) (F : ℕ) (start da : ℚ) (m pi : ℕ) : Channels :=
  ⟨[soloChanAt F start da 0 m pi], 0, 0, 0, sr, sl⟩

/-- State invariant for the solo-channel run of `runCB`: before the
boundary callback `j` the channel is untouched; afterwards, while
`(k−j)·len < F` the sound sits at offset `(k−j)·len` with
`done_at = start + F·frameDuration`; once `F ≤ (k−j)·len` the slot has
been freed. -/
def soloInv (sr sl T0 start da : ℚ) (F len m pi j : ℕ) (c0 : Channels) (k : ℕ) :
    Prop :=
  (runCB sl T0 len c0 k).samplerate = sr ∧
  (runCB sl T0 len c0 k).samplelen = sl ∧
  (runCB sl T0 len c0 k).playback_error = 0 ∧
  ((k ≤ j ∧ (runCB sl T0 len c0 k).data = [soloChanAt F start da 0 m pi]) ∨
   (j < k ∧ (k - j) * len < F ∧
     (runCB sl T0 len c0 k).data =
       [soloChanAt F start (start + ((F : ℤ) : ℚ) * sl)
         (((k - j) * len : ℕ) : ℤ) m pi]) ∨
   (j < k ∧ F ≤ (k - j) * len ∧ ∃ da2,
     (runCB sl T0 len c0 k).data = [deadChan m pi da2]))

/-- The mix segments callback `k` produces on the solo channel: nothing
before the boundary callback `j`, then one segment per callback taking
samples `(k−j)·len, …` into output frames `0, …` until the sound is
exhausted, then nothing. -/
def soloSegs (len F j : ℕ) (k : ℕ) : List (List MixSeg) :=
  if k < j then [[]]
  else if (k - j) * len < F then
    [[⟨0, (((k - j) * len : ℕ) : ℤ), min len (F - (k - j) * len)⟩]]
  else [[]]

/-- Concrete channel for the C1 counterexample: a 4-frame sound scheduled
at instant 9, head of a capacity-2 queue. -/
def lateChan : Sounds := ⟨[some ⟨4, 9, 0⟩, none], false, 0, 1, 0⟩

/-- Concrete channel set for the C1 counterexample (samplerate 1). -/
def lateSet : Channels := ⟨[lateChan], 0, 0, 0, 1, 1⟩

/-- Concrete channel whose head sound starts at 20, after the buffer
`[10, 14)` of the C1 amended witness. -/
def farChan : Sounds := ⟨[some ⟨4, 20, 0⟩, none], false, 0, 1, 0⟩

/-- Occupied producer-slot sound for the C3 failing input. -/
def c3old : TimedSound := ⟨5, 2, 1⟩

/-- Engine state for the C3 failing input: channel 0's producer slot
(index 0) is occupied by `c3old`. -/
def c3st : WsState := ⟨⟨[⟨[some c3old, none], false, 0, 0, 0⟩], 0, 0, 0, 1, 1⟩, 0⟩

/-- Engine state for the C5 witness: the only one-shot channel (index 0)
is paused, so auto-selection finds no channel. -/
def c5st : WsState :=
  ⟨⟨[⟨[none], true, 0, 0, 0⟩, ⟨[none], false, 0, 0, 0⟩], 0, 0, 0, 1, 1⟩, 0⟩

/-- Engine state for the C6 witness: streaming channel 0 (index 1) is
paused with an in-flight sound at `offset = 10`, `slen = 50`. -/
def c6st : WsState :=
  ⟨⟨[⟨[none], false, 0, 0, 0⟩, ⟨[some ⟨50, -1, 10⟩, none], true, 0, 1, 0⟩],
    0, 0, 0, 1, 1⟩, 0⟩

/-- Engine state for the C7 witness: streaming channel 0 (index 1) is
unpaused with a free producer slot and `done_at = 20`. -/
def c7st : WsState :=
  ⟨⟨[⟨[none], false, 0, 0, 0⟩, ⟨[some ⟨50, -1, 10⟩, none], false, 0, 1, 20⟩],
    0, 0, 0, 1, 1⟩, 0⟩

/-- Engine state for the C10 witness: streaming channel 0 (index 1) is
paused with an empty consumer slot. -/
def c10st : WsState :=
  ⟨⟨[⟨[none], false, 0, 0, 0⟩, ⟨[none, none], true, 0, 0, 0⟩], 0, 0, 0, 1, 1⟩, 0⟩

/-- Channel set for the C9 witness: sticky lateness of −5 frames at
samplerate 2. -/
def c9ch : Channels := ⟨[], -5, 0, 0, 2, 1/2⟩

/-- Well-formed concrete channel for the C2 witness: head sound half
consumed. -/
def c2chan : Sounds := ⟨[some ⟨10, 0, 4⟩, none], false, 0, 1, 0⟩

/- ------------------------------------------------------------------ -/
/- List helpers (self-contained, to keep slot-array reasoning local).  -/
/- ------------------------------------------------------------------ -/

theorem lget_set_self {α : Type} : ∀ (l : List α) (n : ℕ) (a : α),
    n < l.length → (l.set n a).get? n = some a
  | _ :: _, 0, _, _ => rfl
  | _ :: xs, n+1, a, h => lget_set_self xs n a (Nat.lt_of_succ_lt_succ h)

theorem lget_set_ne {α : Type} : ∀ (l : List α) (n m : ℕ) (a : α),
    n ≠ m → (l.set n a).get? m = l.get? m
  | [], _, _, _, _ => rfl
  | _ :: _, 0, 0, _, h => absurd rfl h
  | _ :: _, 0, _+1, _, _ => rfl
  | _ :: _, _+1, 0, _, _ => rfl
  | _ :: xs, n+1, m+1, a, h =>
    lget_set_ne xs n m a (fun e => h (congrArg Nat.succ e))

theorem lset_get_self {α : Type} : ∀ (l : List α) (n : ℕ) (a : α),
    l.get? n = some a → l.set n a = l
  | [], _, _, h => nomatch h
  | x :: xs, 0, a, h => by
    have hx : x = a := by injection h
    show a :: xs = x :: xs
    rw [hx]
  | x :: xs, n+1, a, h =>
    congrArg (fun t => x :: t) (lset_get_self xs n a h)

theorem lget_lt_length {α : Type} : ∀ (l : List α) (n : ℕ) (a : α),
    l.get? n = some a → n < l.length
  | [], _, _, h => nomatch h
  | _ :: _, 0, _, _ => Nat.succ_pos _
  | _ :: xs, n+1, a, h =>
    Nat.succ_lt_succ (lget_lt_length xs n a h)

theorem llength_set {α : Type} : ∀ (l : List α) (n : ℕ) (a : α),
    (l.set n a).length = l.length
  | [], _, _ => rfl
  | _ :: _, 0, _ => rfl
  | _ :: xs, n+1, a => congrArg Nat.succ (llength_set xs n a)

theorem lget_take {α : Type} : ∀ (l : List α) (k n : ℕ), n < k →
    (l.take k).get? n = l.get? n
  | [], _, _, _ => by simp
  | _ :: _, k+1, 0, _ => rfl
  | _ :: xs, k+1, n+1, h =>
    lget_take xs k n (Nat.lt_of_succ_lt_succ h)

theorem lmem_set {α : Type} : ∀ (l : List α) (n : ℕ) (a x : α),
    x ∈ l.set n a → x = a ∨ x ∈ l
  | [], _, _, _, h => Or.inr h
  | _ :: _, 0, _, _, h => by
    rcases List.mem_cons.1 h with h | h
    · exact Or.inl h
    · exact Or.inr (List.mem_cons_of_mem _ h)
  | y :: ys, n+1, a, x, h => by
    rcases List.mem_cons.1 h with h | h
    · exact Or.inr (h ▸ List.mem_cons_self _ _)
    · rcases lmem_set ys n a x h with h | h
      · exact Or.inl h
      · exact Or.inr (List.mem_cons_of_mem _ h)

theorem lget_mem {α : Type} : ∀ (l : List α) (n : ℕ) (a : α),
    l.get? n = some a → a ∈ l
  | [], _, _, h => nomatch h
  | x :: xs, 0, a, h => by
    have hx : x = a := by injection h
    exact hx ▸ List.mem_cons_self _ _
  | x :: xs, n+1, a, h =>
    List.mem_cons_of_mem _ (lget_mem xs n a h)

/- ------------------------------------------------------------------ -/
/- Basic facts about the embedding.                                    -/
/- ------------------------------------------------------------------ -/

theorem headSlot_some {s : Sounds} {t : TimedSound} (h : headSlot s = some t) :
    s.data.get? s.consumer_index = some (some t) := by
  unfold headSlot at h
  cases hg : s.data.get? s.consumer_index with
  | none => rw [hg] at h; simp [Option.join] at h
  | some o =>
    rw [hg] at h
    cases o with
    | none => simp [Option.join] at h
    | some t' => simp [Option.join] at h; rw [h]

theorem chanLoop_outi_ge (sr sl bs : ℚ) (len : ℕ) :
    ∀ (fuel : ℕ) (st : LoopSt), (len : ℤ) ≤ st.outi →
      chanLoop sr sl bs len fuel st = st := by
  intro fuel st h
  cases fuel with
  | zero => rfl
  | succ n =>
    unfold chanLoop
    cases hh : headSlot st.s with
    | none => rfl
    | some snd => simp [not_lt.2 h]

theorem startPhase_notDue (sr sl bs : ℚ) (len : ℕ) (snd : TimedSound)
    (outi zp : ℤ) (ss : Bool) (pe : ℤ) (da : ℚ) (ho : snd.offset = 0)
    (hs : 0 < snd.start) (hd : bs + sl * (len : ℚ) ≤ snd.start) :
    startPhase sr sl bs len snd outi zp ss pe da = ⟨(len : ℤ), zp, ss, pe, da⟩ := by
  unfold startPhase
  rw [if_pos ho, if_pos hs, if_neg (not_lt.2 hd)]

/-- One loop-body iteration on a not-yet-due head sound with the
`should_start` flag clear: sets the cursor to `len` and changes nothing
else. -/
theorem loopBody_notDue (sr sl bs : ℚ) (len : ℕ) (st : LoopSt) (snd : TimedSound)
    (ho : snd.offset = 0) (hpos : 0 < snd.slen) (hs : 0 < snd.start)
    (hd : bs + sl * (len : ℚ) ≤ snd.start) (hss : st.ss = false) :
    loopBody sr sl bs len st snd = ⟨st.s, (len : ℤ), st.zp, false, st.pe, st.segs⟩ := by
  unfold loopBody
  rw [startPhase_notDue sr sl bs len snd st.outi st.zp st.ss st.pe st.s.done_at ho hs hd]
  dsimp only
  rw [ho, hss]
  rw [if_neg (by simp : ¬((0 < (0 : ℤ) ∨ false = true) ∧ (0 : ℤ) < snd.slen))]
  rw [if_neg (not_le.2 hpos)]

/-- The head sound is not yet due (`offset = 0`, explicit start at or
after the end of this buffer): the channel's processing in this callback
changes nothing and mixes nothing, provided the callback-wide
`should_start` flag is still clear when the channel is processed. -/
theorem notDue_frozen (sr sl bs : ℚ) (len : ℕ) (s : Sounds) (pe : ℤ)
    (snd : TimedSound) (hp : s.paused = false) (hh : headSlot s = some snd)
    (ho : snd.offset = 0) (hpos : 0 < snd.slen) (hs : 0 < snd.start)
    (hd : bs + sl * (len : ℚ) ≤ snd.start) :
    chanStep sr sl bs len s false pe = ⟨s, false, pe, []⟩ := by
  unfold chanStep
  rw [hp]
  simp only [Bool.false_eq_true, if_false, hh]
  rw [if_neg (by simp : ¬(some snd = none))]
  rcases Nat.eq_zero_or_pos len with hlen | hlen
  · subst hlen
    rw [chanLoop_outi_ge sr sl bs 0 (s.data.length + 1) ⟨s, 0, 0, false, pe, []⟩
      (by norm_num)]
  · unfold chanLoop
    rw [hh]
    dsimp only
    rw [if_pos (by exact_mod_cast hlen : (0:ℤ) < (len:ℤ))]
    rw [loopBody_notDue sr sl bs len ⟨s, 0, 0, false, pe, []⟩ snd ho hpos hs hd rfl]
    rw [chanLoop_outi_ge sr sl bs len _ _ (le_refl _)]

/-- C1 counterexample: a callback with `bufferStart = 10`, `len = 4`,
samplerate 1 (so the buffer covers `[10, 14)`), whose single unpaused
channel heads a sound with `consumedFrames = 0` and explicit start
instant 9 — outside `[10, 14)`.  The claim says the callback leaves the
sound completely untouched; instead the code treats the late sound as
due, clamps its zero padding, mixes all 4 of its frames into this buffer
(segment `⟨0, 0, 4⟩`), records lateness −1 in `playback_error`, and
frees the slot. -/
theorem C1_counterexample :
    lateChan.paused = false ∧
    headSlot lateChan = some ⟨4, 9, 0⟩ ∧
    ((9 : ℚ) < 10 ∨ 10 + 1 * ((4 : ℕ) : ℚ) ≤ 9) ∧
    ws_callback 10 10 4 lateSet =
      (⟨[⟨[none, none], false, 1, 1, 14⟩], -1, 4, 0, 1, 1⟩, [[⟨0, 0, 4⟩]]) := by
  refine ⟨rfl, rfl, Or.inl (by norm_num), ?_⟩
  have h1 : startPhase 1 1 10 4 ⟨4, 9, 0⟩ 0 0 false 0 0 = ⟨0, 0, true, -1, 14⟩ := by
    unfold startPhase
    rw [if_pos rfl, if_pos (by norm_num : (0 : ℚ) < 9),
      if_pos (by norm_num : (9 : ℚ) < 10 + 1 * ((4 : ℕ) : ℚ))]
    rw [show ((9 : ℚ) - 10) * 1 = ((-1 : ℤ) : ℚ) by norm_num, Int.floor_intCast]
    rw [if_pos (by norm_num : (-1 : ℤ) < 0)]
    norm_num
  have hb : loopBody 1 1 10 4
      ⟨⟨[some ⟨4, 9, 0⟩, none], false, 0, 1, 0⟩, 0, 0, false, 0, []⟩ ⟨4, 9, 0⟩ =
      ⟨⟨[none, none], false, 1, 1, 14⟩, 4, 0, true, -1, [⟨0, 0, 4⟩]⟩ := by
    unfold loopBody
    dsimp only
    rw [h1]
    dsimp only
    rw [if_pos (by decide : (0 < (0 : ℤ) ∨ true = true) ∧ (0 : ℤ) < 4)]
    rw [if_pos (by decide : (4 : ℤ) ≤ ((4 : ℕ) : ℤ) - 0 + 0)]
    decide
  have h3 : chanLoop 1 1 10 4 (2 + 1) ⟨lateChan, 0, 0, false, 0, []⟩ =
      ⟨⟨[none, none], false, 1, 1, 14⟩, 4, 0, true, -1, [⟨0, 0, 4⟩]⟩ := by
    unfold chanLoop
    dsimp only [lateChan]
    rw [show headSlot (⟨[some ⟨4, 9, 0⟩, none], false, 0, 1, 0⟩ : Sounds) =
      some ⟨4, 9, 0⟩ from rfl]
    dsimp only
    rw [if_pos (by norm_num : (0 : ℤ) < ((4 : ℕ) : ℤ)), hb]
    decide
  have h2 : chanStep 1 1 10 4 lateChan false 0 =
      ⟨⟨[none, none], false, 1, 1, 14⟩, true, -1, [⟨0, 0, 4⟩]⟩ := by
    unfold chanStep
    rw [if_neg (by decide : ¬(lateChan.paused = true)),
      if_neg (by decide : ¬(headSlot lateChan = none))]
    dsimp only
    rw [show lateChan.data.length = 2 from rfl, h3]
  show ws_callback 10 10 4 ⟨[lateChan], 0, 0, 0, 1, 1⟩ = _
  unfold ws_callback
  dsimp only
  simp only [callbackChans]
  rw [h2]
  dsimp only
  norm_num

/-- C1 (amended): for every callback invocation and every unpaused
channel, if the head sound has `consumedFrames = 0`, a positive frame
count, and an explicit start instant at or after the end of this buffer
(`start ≥ bufferStart + len·frameDuration`), and the callback-wide
`should_start` flag is still clear when the channel is processed, then
the callback leaves that sound completely untouched in this buffer: it
mixes none of its samples, leaves `consumedFrames` at 0, and leaves the
queue slot occupied (the whole channel state is unchanged).  The original
claim's weaker premise — start merely outside
`[bufferStart, bufferStart + len·frameDuration)` — is refuted by
`C1_counterexample` (a start before the buffer is mixed immediately),
and without the `should_start` premise a start flag leaked from an
earlier sound of the same invocation also mixes the sound. -/
theorem C1_amended (sr sl bs : ℚ) (len : ℕ) (s : Sounds) (pe : ℤ)
    (snd : TimedSound) (hp : s.paused = false) (hh : headSlot s = some snd)
    (ho : snd.offset = 0) (hpos : 0 < snd.slen) (hs : 0 < snd.start)
    (hd : bs + sl * (len : ℚ) ≤ snd.start) :
    chanStep sr sl bs len s false pe = ⟨s, false, pe, []⟩ :=
  notDue_frozen sr sl bs len s pe snd hp hh ho hpos hs hd

/-- Witness for `C1_amended` at a concrete input: buffer `[10, 14)`,
head sound of 4 frames starting at 20. -/
theorem C1_amended_witness :
    (farChan.paused = false ∧ headSlot farChan = some ⟨4, 20, 0⟩ ∧
      (10 : ℚ) + 1 * ((4 : ℕ) : ℚ) ≤ 20) ∧
    chanStep 1 1 10 4 farChan false 0 = ⟨farChan, false, 0, []⟩ :=
  ⟨⟨rfl, rfl, by norm_num⟩,
    C1_amended 1 1 10 4 farChan 0 ⟨4, 20, 0⟩ rfl rfl rfl (by norm_num)
      (by norm_num) (by norm_num)⟩

/-- C3: `ws_play` with an explicitly chosen channel does not check the
producer slot.  Failing input: channel 0's producer slot (index 0) holds
`c3old`; `ws_play(now=0, playat=0, channel=0, toplay of 7 frames)` at
stream time 3 overwrites that slot with the new sound `⟨7, 3, 0⟩`,
advances the producer index and returns success (0) — the claim (and
spec §4.2) requires it to fail with a sentinel and not overwrite. -/
theorem C3_overwrites_occupied_slot :
    prodSlot (⟨[some c3old, none], false, 0, 0, 0⟩ : Sounds) = some c3old ∧
    ws_play 0 0 0 7 3 c3st =
      some (⟨⟨[⟨[some ⟨7, 3, 0⟩, none], false, 0, 1, 0⟩], 0, 0, 0, 1, 1⟩, 0⟩, 0) := by
  refine ⟨by decide, ?_⟩
  norm_num [ws_play, newTimedSound, enqueueAt, c3st, c3old]

/-- C8: the claim says `ws_pause` only ever touches pause flags of the
targeted channels.  The code's pause-all branch (`channel < 0`) does not
return: it falls through to the single-channel write, and with
`isstream = 0` that write targets `data[channel]` with a negative index —
an out-of-bounds write (undefined behaviour), modelled as `none`.  This
holds for every channel set and pause value. -/
theorem C8_pause_all_oob (c : Channels) (p : Bool) :
    ws_pause c (-1) false p = none := by
  unfold ws_pause
  rw [if_pos]
  exact Or.inl (by norm_num)

/-- C9: `ws_warn_str` is read-and-clear.  When `playback_error` holds a
negative lateness the call returns a non-empty warning (modelled as
`some latency` with `latency = −playback_error · samplelen`, the value
the C code formats into the warning text) and resets the field to 0, so
an immediately following call returns the empty string (`none`); when
the field is non-negative the call returns the empty string and changes
nothing. -/
theorem C9_warn_read_and_clear (c : Channels) :
    (c.playback_error < 0 →
      ws_warn_str c =
        ({ c with playback_error := 0 },
          some (((-c.playback_error : ℤ) : ℚ) * c.samplelen)) ∧
      (ws_warn_str (ws_warn_str c).1).2 = none) ∧
    (0 ≤ c.playback_error → ws_warn_str c = (c, none)) := by
  constructor
  · intro h
    constructor
    · unfold ws_warn_str
      rw [if_pos h]
    · unfold ws_warn_str
      rw [if_pos h]
      simp
  · intro h
    unfold ws_warn_str
    rw [if_neg (not_lt.2 h)]

/-- Witness for `C9_warn_read_and_clear` at a concrete input:
`playback_error = −5`, samplerate 2 (`samplelen = 1/2`), so the warning
reports a lateness of 5/2 seconds and a second call returns nothing. -/
theorem C9_warn_witness :
    c9ch.playback_error < 0 ∧
    (ws_warn_str c9ch =
        ({ c9ch with playback_error := 0 }, some (((5 : ℤ) : ℚ) * c9ch.samplelen)) ∧
      (ws_warn_str (ws_warn_str c9ch).1).2 = none) :=
  ⟨by decide, (C9_warn_read_and_clear c9ch).1 (by decide)⟩

/-- C10: `ws_play_next` on a paused streaming channel whose consumer
(head) slot is empty dereferences the empty slot (source lines 262–263
read `sounds->data[consumer_index]->offset` without a null check); the
model returns `none` (the crash).  This holds for every such state with
no further precondition — the spec states none. -/
theorem C10_null_deref (now pa_now : ℚ) (L : ℤ) (channel : ℕ) (st : WsState)
    (s0 : Sounds)
    (hs : st.channels.data.get? (st.channels.data.length / 2 + channel) = some s0)
    (hp : s0.paused = true) (hh : headSlot s0 = none) :
    ws_play_next now channel L pa_now st = none := by
  simp only [ws_play_next]
  rw [hs]
  simp only [hp, hh]
  rw [if_pos trivial]

theorem lget_take_none {α : Type} : ∀ (l : List α) (k n : ℕ), k ≤ n →
    (l.take k).get? n = none
  | [], k, _, _ => by cases k <;> rfl
  | _ :: _, 0, _, _ => rfl
  | _ :: _, k+1, 0, h => absurd h (by omega)
  | _ :: xs, k+1, n+1, h => lget_take_none xs k n (by omega)

theorem idxd_mem : ∀ (l : List Sounds) (n i : ℕ) (s : Sounds),
    (i, s) ∈ idxd n l ↔ ∃ k, i = n + k ∧ l.get? k = some s := by
  intro l
  induction l with
  | nil =>
    intro n i s
    constructor
    · intro h; cases h
    · rintro ⟨k, _, hg⟩; cases hg
  | cons x xs ih =>
    intro n i s
    simp only [idxd, List.mem_cons]
    constructor
    · rintro (he | hm)
      · obtain ⟨h1, h2⟩ := Prod.mk.injEq .. ▸ he
        injection he with h1 h2
        exact ⟨0, by omega, by rw [← h2]; rfl⟩
      · rcases (ih (n + 1) i s).1 hm with ⟨k, hk, hg⟩
        exact ⟨k + 1, by omega, hg⟩
    · rintro ⟨k, hk, hg⟩
      cases k with
      | zero =>
        have hx : x = s := by injection hg
        subst hx
        exact Or.inl (by simp [hk])
      | succ k =>
        exact Or.inr ((ih (n + 1) i s).2 ⟨k, by omega, hg⟩)

theorem qualifies_iff (c : Channels) (i : ℕ) :
    Qualifies c i ↔
      ∃ s, (i, s) ∈ idxd 0 (c.data.take (c.data.length / 2)) ∧ Ok s := by
  unfold Qualifies
  constructor
  · rintro ⟨hi, s, hg, hok⟩
    refine ⟨s, ?_, hok⟩
    rw [idxd_mem]
    exact ⟨i, by omega, by rw [lget_take _ _ _ hi]; exact hg⟩
  · rintro ⟨s, hm, hok⟩
    rw [idxd_mem] at hm
    obtain ⟨k, hk, hg⟩ := hm
    have hik : i = k := by omega
    subst hik
    by_cases hi : i < c.data.length / 2
    · rw [lget_take _ _ _ hi] at hg
      exact ⟨hi, s, hg, hok⟩
    · rw [lget_take_none _ _ _ (by omega)] at hg
      cases hg

theorem selectLoop_skip : ∀ (l : List (ℕ × Sounds)) (acc : ℤ × Option ℚ),
    (∀ p ∈ l, ¬ Ok p.2) → selectLoop l acc = acc := by
  intro l
  induction l with
  | nil => intro acc _; rfl
  | cons q rest ih =>
    rintro ⟨ch, md⟩ h
    obtain ⟨i, s⟩ := q
    have hq := h (i, s) (List.mem_cons_self _ _)
    unfold selectLoop
    by_cases hp : s.paused = true
    · rw [if_pos hp]
      exact ih _ (fun p hm => h p (List.mem_cons_of_mem _ hm))
    · rw [if_neg hp]
      have hpf : s.paused = false := by simp at hp; exact hp
      have hps : (prodSlot s).isSome = true := by
        cases hv : prodSlot s with
        | none => exact absurd ⟨hpf, hv⟩ hq
        | some _ => rfl
      rw [if_pos hps]
      exact ih _ (fun p hm => h p (List.mem_cons_of_mem _ hm))

theorem selectLoop_md_some : ∀ (l : List (ℕ × Sounds)) (ch : ℤ) (m : ℚ),
    (selectLoop l (ch, some m)).2 ≠ none := by
  intro l
  induction l with
  | nil => intro ch m h; cases h
  | cons q rest ih =>
    intro ch m
    obtain ⟨i, s⟩ := q
    unfold selectLoop
    by_cases hp : s.paused = true
    · rw [if_pos hp]; exact ih ch m
    · rw [if_neg hp]
      by_cases hps : (prodSlot s).isSome = true
      · rw [if_pos hps]; exact ih ch m
      · rw [if_neg hps]
        by_cases hmd : mdGT (some m) s.done_at = true
        · rw [if_pos hmd]; exact ih _ _
        · rw [if_neg hmd]; exact ih ch m

theorem selectLoop_le : ∀ (l : List (ℕ × Sounds)) (ch : ℤ) (m m' : ℚ),
    (selectLoop l (ch, some m)).2 = some m' → m' ≤ m := by
  intro l
  induction l with
  | nil =>
    intro ch m m' h
    have : some m = some m' := h
    injection this with h2
    exact h2 ▸ le_refl _
  | cons q rest ih =>
    intro ch m m' h
    obtain ⟨i, s⟩ := q
    unfold selectLoop at h
    by_cases hp : s.paused = true
    · rw [if_pos hp] at h; exact ih _ _ _ h
    · rw [if_neg hp] at h
      by_cases hps : (prodSlot s).isSome = true
      · rw [if_pos hps] at h; exact ih _ _ _ h
      · rw [if_neg hps] at h
        by_cases hmd : mdGT (some m) s.done_at = true
        · rw [if_pos hmd] at h
          have hlt : s.done_at < m := by
            simpa [mdGT] using hmd
          exact le_trans (ih _ _ _ h) hlt.le
        · rw [if_neg hmd] at h; exact ih _ _ _ h

theorem selectLoop_hit : ∀ (l : List (ℕ × Sounds)) (ch : ℤ) (md : Option ℚ),
    (∃ p ∈ l, Ok p.2) → (selectLoop l (ch, md)).2 ≠ none := by
  intro l
  induction l with
  | nil => rintro ch md ⟨p, hm, _⟩; cases hm
  | cons q rest ih =>
    rintro ch md ⟨p, hm, hok⟩
    obtain ⟨i, s⟩ := q
    unfold selectLoop
    rcases List.mem_cons.1 hm with he | hmem
    · subst he
      rw [if_neg (by rw [hok.1]; simp), if_neg (by rw [hok.2]; simp)]
      cases md with
      | none =>
        rw [if_pos (by rfl : mdGT none s.done_at = true)]
        exact selectLoop_md_some rest _ _
      | some m =>
        by_cases hmd : mdGT (some m) s.done_at = true
        · rw [if_pos hmd]; exact selectLoop_md_some rest _ _
        · rw [if_neg hmd]; exact selectLoop_md_some rest _ _
    · by_cases hp : s.paused = true
      · rw [if_pos hp]; exact ih _ _ ⟨p, hmem, hok⟩
      · rw [if_neg hp]
        by_cases hps : (prodSlot s).isSome = true
        · rw [if_pos hps]; exact ih _ _ ⟨p, hmem, hok⟩
        · rw [if_neg hps]
          by_cases hmd : mdGT md s.done_at = true
          · rw [if_pos hmd]; exact selectLoop_md_some rest _ _
          · rw [if_neg hmd]; exact ih _ _ ⟨p, hmem, hok⟩

theorem selectLoop_min : ∀ (l : List (ℕ × Sounds)) (ch : ℤ) (md : Option ℚ)
    (p : ℕ × Sounds), p ∈ l → Ok p.2 →
    ∀ m', (selectLoop l (ch, md)).2 = some m' → m' ≤ p.2.done_at := by
  intro l
  induction l with
  | nil => intro ch md p hm; cases hm
  | cons q rest ih =>
    intro ch md p hm hok m' hres
    obtain ⟨i, s⟩ := q
    rcases List.mem_cons.1 hm with he | hmem
    · subst he
      unfold selectLoop at hres
      rw [if_neg (by rw [hok.1]; simp), if_neg (by rw [hok.2]; simp)] at hres
      by_cases hmd : mdGT md s.done_at = true
      · rw [if_pos hmd] at hres
        exact selectLoop_le rest _ _ _ hres
      · rw [if_neg hmd] at hres
        cases md with
        | none => exact absurd rfl hmd
        | some m =>
          have hmle : m ≤ s.done_at := by
            simpa [mdGT, not_lt] using hmd
          exact le_trans (selectLoop_le rest _ _ _ hres) hmle
    · unfold selectLoop at hres
      by_cases hp : s.paused = true
      · rw [if_pos hp] at hres; exact ih _ _ _ hmem hok m' hres
      · rw [if_neg hp] at hres
        by_cases hps : (prodSlot s).isSome = true
        · rw [if_pos hps] at hres; exact ih _ _ _ hmem hok m' hres
        · rw [if_neg hps] at hres
          by_cases hmd : mdGT md s.done_at = true
          · rw [if_pos hmd] at hres; exact ih _ _ _ hmem hok m' hres
          · rw [if_neg hmd] at hres; exact ih _ _ _ hmem hok m' hres

theorem selectLoop_cases : ∀ (l : List (ℕ × Sounds)) (acc : ℤ × Option ℚ),
    selectLoop l acc = acc ∨
    ∃ i s, (i, s) ∈ l ∧ Ok s ∧ selectLoop l acc = ((i : ℤ), some s.done_at) := by
  intro l
  induction l with
  | nil => intro acc; exact Or.inl rfl
  | cons q rest ih =>
    rintro ⟨ch, md⟩
    obtain ⟨i, s⟩ := q
    unfold selectLoop
    by_cases hp : s.paused = true
    · rw [if_pos hp]
      rcases ih (ch, md) with h | ⟨i', s', hm, hok, he⟩
      · exact Or.inl h
      · exact Or.inr ⟨i', s', List.mem_cons_of_mem _ hm, hok, he⟩
    · rw [if_neg hp]
      by_cases hps : (prodSlot s).isSome = true
      · rw [if_pos hps]
        rcases ih (ch, md) with h | ⟨i', s', hm, hok, he⟩
        · exact Or.inl h
        · exact Or.inr ⟨i', s', List.mem_cons_of_mem _ hm, hok, he⟩
      · have hok : Ok s := by
          refine ⟨by simpa using hp, ?_⟩
          cases hv : prodSlot s with
          | none => rfl
          | some _ => rw [hv] at hps; exact absurd rfl hps
        rw [if_neg hps]
        by_cases hmd : mdGT md s.done_at = true
        · rw [if_pos hmd]
          rcases ih ((i : ℤ), some s.done_at) with h | ⟨i', s', hm, hok', he⟩
          · exact Or.inr ⟨i, s, List.mem_cons_self _ _, hok, h⟩
          · exact Or.inr ⟨i', s', List.mem_cons_of_mem _ hm, hok', he⟩
        · rw [if_neg hmd]
          rcases ih (ch, md) with h | ⟨i', s', hm, hok', he⟩
          · exact Or.inl h
          · exact Or.inr ⟨i', s', List.mem_cons_of_mem _ hm, hok', he⟩

theorem lset_set {α : Type} : ∀ (l : List α) (n : ℕ) (a b : α),
    (l.set n a).set n b = l.set n b
  | [], _, _, _ => rfl
  | _ :: _, 0, _, _ => rfl
  | x :: xs, n+1, a, b => congrArg (fun t => x :: t) (lset_set xs n a b)

theorem Mono_refl (d : List (Option TimedSound)) : Mono d d :=
  ⟨rfl, fun _ t' h => ⟨t', h, rfl, rfl, le_refl _⟩, fun _ h => h⟩

theorem Mono_trans {a b c : List (Option TimedSound)} :
    Mono a b → Mono b c → Mono a c := by
  rintro ⟨hl1, hf1, hn1⟩ ⟨hl2, hf2, hn2⟩
  refine ⟨hl2.trans hl1, ?_, fun j h => hn2 j (hn1 j h)⟩
  intro j t' h
  rcases hf2 j t' h with ⟨t1, hb, e1, e2, e3⟩
  rcases hf1 j t1 hb with ⟨t0, ha, f1, f2, f3⟩
  exact ⟨t0, ha, f1.trans e1, f2.trans e2, le_trans f3 e3⟩

theorem Mono_set_update {d : List (Option TimedSound)} {ci : ℕ} {t t' : TimedSound}
    (hg : d.get? ci = some (some t)) (hsl : t'.slen = t.slen)
    (hst : t'.start = t.start) (hof : t.offset ≤ t'.offset) :
    Mono d (d.set ci (some t')) := by
  have hlen : ci < d.length := lget_lt_length _ _ _ hg
  refine ⟨llength_set _ _ _, ?_, ?_⟩
  · intro j u h
    by_cases hj : ci = j
    · subst hj
      rw [lget_set_self _ _ _ hlen] at h
      have hu : t' = u := Option.some.inj (Option.some.inj h)
      subst hu
      exact ⟨t, hg, hsl.symm, hst.symm, hof⟩
    · rw [lget_set_ne _ _ _ _ hj] at h
      exact ⟨u, h, rfl, rfl, le_refl _⟩
  · intro j h
    by_cases hj : ci = j
    · subst hj
      rw [hg] at h
      simp at h
    · rw [lget_set_ne _ _ _ _ hj]
      exact h

theorem Mono_set_none {d : List (Option TimedSound)} {ci : ℕ} {t : TimedSound}
    (hg : d.get? ci = some (some t)) : Mono d (d.set ci none) := by
  have hlen : ci < d.length := lget_lt_length _ _ _ hg
  refine ⟨llength_set _ _ _, ?_, ?_⟩
  · intro j u h
    by_cases hj : ci = j
    · subst hj
      rw [lget_set_self _ _ _ hlen] at h
      simp at h
    · rw [lget_set_ne _ _ _ _ hj] at h
      exact ⟨u, h, rfl, rfl, le_refl _⟩
  · intro j h
    by_cases hj : ci = j
    · subst hj
      exact lget_set_self _ _ _ hlen
    · rw [lget_set_ne _ _ _ _ hj]
      exact h

theorem startPhase_bounds (sr sl bs : ℚ) (len : ℕ) (snd : TimedSound)
    (outi zp : ℤ) (ss : Bool) (pe : ℤ) (da : ℚ)
    (hsr : 0 < sr) (hsl : sl * sr = 1)
    (houti0 : 0 ≤ outi) (houti1 : outi ≤ (len : ℤ))
    (hzp0 : 0 ≤ zp) (hzp1 : zp ≤ (len : ℤ)) :
    (0 ≤ (startPhase sr sl bs len snd outi zp ss pe da).zp ∧
      (startPhase sr sl bs len snd outi zp ss pe da).zp ≤ (len : ℤ)) ∧
    (0 ≤ (startPhase sr sl bs len snd outi zp ss pe da).outi ∧
      (startPhase sr sl bs len snd outi zp ss pe da).outi ≤ (len : ℤ)) := by
  unfold startPhase
  by_cases h1 : snd.offset = 0
  · rw [if_pos h1]
    by_cases h2 : 0 < snd.start
    · rw [if_pos h2]
      by_cases h3 : snd.start < bs + sl * (len : ℚ)
      · rw [if_pos h3]
        dsimp only
        by_cases h4 : Int.floor ((snd.start - bs) * sr) < outi
        · rw [if_pos h4]
          exact ⟨⟨houti0, houti1⟩, houti0, houti1⟩
        · rw [if_neg h4]
          have hz0 : 0 ≤ Int.floor ((snd.start - bs) * sr) :=
            le_trans houti0 (not_lt.1 h4)
          have hzlen : Int.floor ((snd.start - bs) * sr) < (len : ℤ) := by
            rw [Int.floor_lt]
            have h3' : snd.start - bs < sl * (len : ℚ) := by linarith
            have hcalc : (sl * (len : ℚ)) * sr = (len : ℚ) := by
              have he : (sl * (len : ℚ)) * sr = (sl * sr) * (len : ℚ) := by ring
              rw [he, hsl, one_mul]
            calc (snd.start - bs) * sr < (sl * (len : ℚ)) * sr :=
                  mul_lt_mul_of_pos_right h3' hsr
              _ = ((len : ℤ) : ℚ) := by rw [hcalc]; norm_num
          exact ⟨⟨hz0, hzlen.le⟩, houti0, houti1⟩
      · rw [if_neg h3]
        exact ⟨⟨hzp0, hzp1⟩, Int.natCast_nonneg len, le_refl _⟩
    · rw [if_neg h2]
      exact ⟨⟨houti0, houti1⟩, houti0, houti1⟩
  · rw [if_neg h1]
    exact ⟨⟨hzp0, hzp1⟩, houti0, houti1⟩

theorem loopBody_inv (sr sl bs : ℚ) (len : ℕ) (st : LoopSt) (snd : TimedSound)
    (hsr : 0 < sr) (hsl : sl * sr = 1) (hh : headSlot st.s = some snd)
    (hWF : ∀ o ∈ st.s.data, soundOK o = true)
    (houti0 : 0 ≤ st.outi) (houti1 : st.outi ≤ (len : ℤ))
    (hzp0 : 0 ≤ st.zp) (hzp1 : st.zp ≤ (len : ℤ)) :
    (∀ o ∈ (loopBody sr sl bs len st snd).s.data, soundOK o = true) ∧
    Mono st.s.data (loopBody sr sl bs len st snd).s.data ∧
    0 ≤ (loopBody sr sl bs len st snd).outi ∧
    (loopBody sr sl bs len st snd).outi ≤ (len : ℤ) ∧
    0 ≤ (loopBody sr sl bs len st snd).zp ∧
    (loopBody sr sl bs len st snd).zp ≤ (len : ℤ) := by
  obtain ⟨⟨hpz0, hpz1⟩, hpo0, hpo1⟩ :=
    startPhase_bounds sr sl bs len snd st.outi st.zp st.ss st.pe st.s.done_at
      hsr hsl houti0 houti1 hzp0 hzp1
  have hget := headSlot_some hh
  have hoffOK : soundOK (some snd) = true := hWF _ (lget_mem _ _ _ hget)
  have hoff : 0 ≤ snd.offset ∧ snd.offset ≤ snd.slen := by
    simpa [soundOK] using hoffOK
  unfold loopBody
  dsimp only
  set p := startPhase sr sl bs len snd st.outi st.zp st.ss st.pe st.s.done_at with hp
  have hfo0 : 0 ≤ finalOuti len p.zp snd.slen snd.offset :=
    le_trans hpz0 (le_max_left _ _)
  have hfo1 : finalOuti len p.zp snd.slen snd.offset ≤ (len : ℤ) :=
    max_le hpz1 (min_le_left _ _)
  have hoff1 : 0 ≤ (len : ℤ) - p.zp + snd.offset := by omega
  have hoff2 : snd.offset ≤ (len : ℤ) - p.zp + snd.offset := by omega
  by_cases hmix : (0 < snd.offset ∨ p.ss = true) ∧ snd.offset < snd.slen
  · rw [if_pos hmix]
    by_cases hfree : snd.slen ≤ (len : ℤ) - p.zp + snd.offset
    · rw [if_pos hfree]
      refine ⟨?_, ?_, hfo0, hfo1, hpz0, hpz1⟩
      · dsimp only [freeHead]
        rw [lset_set]
        intro o hm
        rcases lmem_set _ _ _ _ hm with ho | ho
        · rw [ho]; rfl
        · exact hWF o ho
      · dsimp only [freeHead]
        rw [lset_set]
        exact Mono_set_none hget
    · rw [if_neg hfree]
      refine ⟨?_, ?_, hfo0, hfo1, hpz0, hpz1⟩
      · dsimp only
        intro o hm
        rcases lmem_set _ _ _ _ hm with ho | ho
        · rw [ho]
          simp only [soundOK, Bool.and_eq_true, decide_eq_true_eq]
          exact ⟨hoff1, le_of_not_le hfree⟩
        · exact hWF o ho
      · dsimp only
        exact Mono_set_update hget rfl rfl hoff2
  · rw [if_neg hmix]
    by_cases hfree2 : snd.slen ≤ snd.offset
    · rw [if_pos hfree2]
      refine ⟨?_, ?_, hpo0, hpo1, hpz0, hpz1⟩
      · dsimp only [freeHead]
        intro o hm
        rcases lmem_set _ _ _ _ hm with ho | ho
        · rw [ho]; rfl
        · exact hWF o ho
      · dsimp only [freeHead]
        exact Mono_set_none hget
    · rw [if_neg hfree2]
      exact ⟨hWF, Mono_refl _, hpo0, hpo1, hpz0, hpz1⟩

theorem chanLoop_inv (sr sl bs : ℚ) (len : ℕ)
    (hsr : 0 < sr) (hsl : sl * sr = 1) :
    ∀ (fuel : ℕ) (st : LoopSt),
      (∀ o ∈ st.s.data, soundOK o = true) →
      0 ≤ st.outi → st.outi ≤ (len : ℤ) → 0 ≤ st.zp → st.zp ≤ (len : ℤ) →
      (∀ o ∈ (chanLoop sr sl bs len fuel st).s.data, soundOK o = true) ∧
      Mono st.s.data (chanLoop sr sl bs len fuel st).s.data := by
  intro fuel
  induction fuel with
  | zero => intro st hWF _ _ _ _; exact ⟨hWF, Mono_refl _⟩
  | succ n ih =>
    intro st hWF houti0 houti1 hzp0 hzp1
    show (∀ o ∈ (chanLoop sr sl bs len (n+1) st).s.data, soundOK o = true) ∧ _
    unfold chanLoop
    cases hh : headSlot st.s with
    | none => exact ⟨hWF, Mono_refl _⟩
    | some snd =>
      dsimp only
      by_cases hlt : st.outi < (len : ℤ)
      · rw [if_pos hlt]
        obtain ⟨hWF', hM', ho0, ho1, hz0, hz1⟩ :=
          loopBody_inv sr sl bs len st snd hsr hsl hh hWF houti0 houti1 hzp0 hzp1
        obtain ⟨hWF2, hM2⟩ := ih (loopBody sr sl bs len st snd) hWF' ho0 ho1 hz0 hz1
        exact ⟨hWF2, Mono_trans hM' hM2⟩
      · rw [if_neg hlt]
        exact ⟨hWF, Mono_refl _⟩

theorem chanLoop_head_none (sr sl bs : ℚ) (len : ℕ) (fuel : ℕ) (st : LoopSt)
    (hh : headSlot st.s = none) : chanLoop sr sl bs len fuel st = st := by
  cases fuel with
  | zero => rfl
  | succ n =>
    unfold chanLoop
    rw [hh]

theorem headSlot_deadChan (m pi : ℕ) (da : ℚ) : headSlot (deadChan m pi da) = none := by
  unfold headSlot deadChan
  dsimp only
  by_cases hm : 1 = m + 1
  · rw [if_pos hm]
    rfl
  · rw [if_neg hm]
    cases m with
    | zero => exact absurd rfl hm
    | succ mm => rfl

theorem freeHead_solo (snd1 : TimedSound) (m pi : ℕ) (da : ℚ) :
    freeHead ⟨some snd1 :: List.replicate m none, false, 0, pi, da⟩ =
      deadChan m pi da := by
  unfold freeHead deadChan
  dsimp only
  congr 1
  simp

theorem chanStep_empty (sr sl bs : ℚ) (len : ℕ) (s : Sounds) (ss : Bool) (pe : ℤ)
    (hp : s.paused = false) (hh : headSlot s = none) :
    chanStep sr sl bs len s ss pe =
      ⟨{ s with done_at := bs + sl * (len : ℚ) }, ss, pe, []⟩ := by
  unfold chanStep
  rw [hp]
  simp only [Bool.false_eq_true, if_false]
  rw [if_pos hh]
  rw [chanLoop_head_none sr sl bs len _ _ (by exact hh)]

theorem ws_callback_single (bs cur : ℚ) (len : ℕ) (c : Channels) (s : Sounds)
    (h : c.data = [s]) :
    ws_callback bs cur len c =
      ({ c with
          data := [(chanStep c.samplerate c.samplelen bs len s false
            c.playback_error).s],
          playback_error := (chanStep c.samplerate c.samplelen bs len s false
            c.playback_error).pe,
          last_latency := bs - cur, last_buffer_size := len },
        [(chanStep c.samplerate c.samplelen bs len s false c.playback_error).segs]) := by
  unfold ws_callback
  rw [h]
  simp only [callbackChans]

/-- The start-determination block at an exact buffer boundary
(`start = bufferStart`): zero padding 0, no clamp, no lateness,
`done_at := start + slen·frameDuration`. -/
theorem startPhase_boundary (sr sl : ℚ) (len : ℕ) (Fz : ℤ) (start da : ℚ) (pe : ℤ)
    (hslpos : 0 < sl) (hlen : 0 < len) (hstart : 0 < start) :
    startPhase sr sl start len ⟨Fz, start, 0⟩ 0 0 false pe da =
      ⟨0, 0, true, pe, start + (Fz : ℚ) * sl⟩ := by
  have hdue : start < start + sl * (len : ℚ) := by
    have hpos : 0 < sl * (len : ℚ) :=
      mul_pos hslpos (by exact_mod_cast hlen)
    linarith
  unfold startPhase
  rw [if_pos rfl, if_pos hstart, if_pos hdue]
  dsimp only
  rw [show (start - start) * sr = 0 by ring, Int.floor_zero]
  rw [if_neg (lt_irrefl 0)]

/-- The start-determination block on a sound that has already started
(`offset ≠ 0`): nothing changes. -/
theorem startPhase_started (sr sl bs : ℚ) (len : ℕ) (Fz : ℤ) (start da : ℚ)
    (off : ℤ) (ss : Bool) (pe : ℤ) (hoff : off ≠ 0) :
    startPhase sr sl bs len ⟨Fz, start, off⟩ 0 0 ss pe da = ⟨0, 0, ss, pe, da⟩ := by
  unfold startPhase
  rw [if_neg hoff]

/-- One channel step on the solo channel when the head sound mixes and is
fully consumed within this buffer (`F ≤ off + len`): mixes its remaining
`F − off` frames into output frames `0, …` and frees the slot. -/
theorem chanStep_solo_mix_done (sr sl bs : ℚ) (len F m pi : ℕ)
    (start da daOut : ℚ) (off : ℤ) (sOut : Bool) (pe : ℤ)
    (hlen : 0 < len)
    (hSP : startPhase sr sl bs len ⟨(F : ℤ), start, off⟩ 0 0 false pe da =
      ⟨0, 0, sOut, pe, daOut⟩)
    (hguard : 0 < off ∨ sOut = true)
    (hoffF : off < (F : ℤ)) (hdone : (F : ℤ) ≤ off + (len : ℤ)) :
    chanStep sr sl bs len (soloChanAt F start da off m pi) false pe =
      ⟨deadChan m pi daOut, sOut, pe, [⟨0, off, ((F : ℤ) - off).toNat⟩]⟩ := by
  have hlt : (0 : ℤ) < (len : ℤ) := by exact_mod_cast hlen
  have hhead : headSlot (soloChanAt F start da off m pi) =
      some ⟨(F : ℤ), start, off⟩ := rfl
  have hbody : loopBody sr sl bs len
      ⟨soloChanAt F start da off m pi, 0, 0, false, pe, []⟩ ⟨(F : ℤ), start, off⟩ =
      ⟨deadChan m pi daOut, (F : ℤ) - off, 0, sOut, pe,
        [⟨0, off, ((F : ℤ) - off).toNat⟩]⟩ := by
    unfold loopBody
    dsimp only [soloChanAt]
    rw [hSP]
    dsimp only
    rw [if_pos ⟨hguard, hoffF⟩]
    rw [if_pos (show (F : ℤ) ≤ (len : ℤ) - 0 + off by omega)]
    rw [show finalOuti len 0 (F : ℤ) off = (F : ℤ) - off from by
      unfold finalOuti; omega]
    have hset : (some (⟨(F : ℤ), start, off⟩ : TimedSound) ::
        List.replicate m none).set 0 (some ⟨(F : ℤ), start, (len : ℤ) - 0 + off⟩) =
        some (⟨(F : ℤ), start, (len : ℤ) - 0 + off⟩ : TimedSound) ::
          List.replicate m none := rfl
    rw [hset, freeHead_solo]
    simp
  unfold chanStep
  rw [show (soloChanAt F start da off m pi).paused = false from rfl]
  simp only [Bool.false_eq_true, if_false]
  rw [if_neg (by rw [hhead]; simp)]
  have hstep : chanLoop sr sl bs len ((soloChanAt F start da off m pi).data.length + 1)
      ⟨soloChanAt F start da off m pi, 0, 0, false, pe, []⟩ =
      chanLoop sr sl bs len (soloChanAt F start da off m pi).data.length
        (loopBody sr sl bs len ⟨soloChanAt F start da off m pi, 0, 0, false, pe, []⟩
          ⟨(F : ℤ), start, off⟩) := by
    conv_lhs => unfold chanLoop
    rw [hhead]
    dsimp only
    rw [if_pos hlt]
  rw [hstep, hbody, chanLoop_head_none sr sl bs len _ _ (headSlot_deadChan m pi daOut)]

/-- One channel step on the solo channel when the head sound mixes but
does not finish in this buffer (`off + len < F`): mixes `len` frames and
advances the offset by `len`. -/
theorem chanStep_solo_mix_part (sr sl bs : ℚ) (len F m pi : ℕ)
    (start da daOut : ℚ) (off : ℤ) (sOut : Bool) (pe : ℤ)
    (hlen : 0 < len)
    (hSP : startPhase sr sl bs len ⟨(F : ℤ), start, off⟩ 0 0 false pe da =
      ⟨0, 0, sOut, pe, daOut⟩)
    (hguard : 0 < off ∨ sOut = true)
    (hkeep : off + (len : ℤ) < (F : ℤ)) :
    chanStep sr sl bs len (soloChanAt F start da off m pi) false pe =
      ⟨soloChanAt F start daOut ((len : ℤ) - 0 + off) m pi, sOut, pe,
        [⟨0, off, len⟩]⟩ := by
  have hlt : (0 : ℤ) < (len : ℤ) := by exact_mod_cast hlen
  have hhead : headSlot (soloChanAt F start da off m pi) =
      some ⟨(F : ℤ), start, off⟩ := rfl
  have hbody : loopBody sr sl bs len
      ⟨soloChanAt F start da off m pi, 0, 0, false, pe, []⟩ ⟨(F : ℤ), start, off⟩ =
      ⟨soloChanAt F start daOut ((len : ℤ) - 0 + off) m pi, (len : ℤ), 0, sOut, pe,
        [⟨0, off, len⟩]⟩ := by
    unfold loopBody
    dsimp only [soloChanAt]
    rw [hSP]
    dsimp only
    rw [if_pos ⟨hguard, by omega⟩]
    rw [if_neg (show ¬((F : ℤ) ≤ (len : ℤ) - 0 + off) by omega)]
    rw [show finalOuti len 0 (F : ℤ) off = (len : ℤ) from by
      unfold finalOuti; omega]
    have hcnt : (((len : ℤ) - 0).toNat) = len := by omega
    rw [hcnt]
    simp [soloChanAt]
  unfold chanStep
  rw [show (soloChanAt F start da off m pi).paused = false from rfl]
  simp only [Bool.false_eq_true, if_false]
  rw [if_neg (by rw [hhead]; simp)]
  have hstep : chanLoop sr sl bs len ((soloChanAt F start da off m pi).data.length + 1)
      ⟨soloChanAt F start da off m pi, 0, 0, false, pe, []⟩ =
      chanLoop sr sl bs len (soloChanAt F start da off m pi).data.length
        (loopBody sr sl bs len ⟨soloChanAt F start da off m pi, 0, 0, false, pe, []⟩
          ⟨(F : ℤ), start, off⟩) := by
    conv_lhs => unfold chanLoop
    rw [hhead]
    dsimp only
    rw [if_pos hlt]
  rw [hstep, hbody, chanLoop_outi_ge sr sl bs len _ _ (le_refl _)]

theorem runCB_succ (sl T0 : ℚ) (len : ℕ) (c0 : Channels) (k : ℕ) (s : Sounds)
    (hdata : (runCB sl T0 len c0 k).data = [s]) :
    runCB sl T0 len c0 (k + 1) =
      { runCB sl T0 len c0 k with
        data := [(chanStep (runCB sl T0 len c0 k).samplerate
          (runCB sl T0 len c0 k).samplelen (T0 + (k : ℚ) * (len : ℚ) * sl) len s
          false (runCB sl T0 len c0 k).playback_error).s],
        playback_error := (chanStep (runCB sl T0 len c0 k).samplerate
          (runCB sl T0 len c0 k).samplelen (T0 + (k : ℚ) * (len : ℚ) * sl) len s
          false (runCB sl T0 len c0 k).playback_error).pe,
        last_latency := 0, last_buffer_size := len } ∧
    segsAt sl T0 len c0 k =
      [(chanStep (runCB sl T0 len c0 k).samplerate
        (runCB sl T0 len c0 k).samplelen (T0 + (k : ℚ) * (len : ℚ) * sl) len s
        false (runCB sl T0 len c0 k).playback_error).segs] := by
  constructor
  · show (ws_callback (T0 + (k : ℚ) * (len : ℚ) * sl) (T0 + (k : ℚ) * (len : ℚ) * sl)
      len (runCB sl T0 len c0 k)).1 = _
    rw [ws_callback_single _ _ _ _ s hdata]
    norm_num
  · show (ws_callback (T0 + (k : ℚ) * (len : ℚ) * sl) (T0 + (k : ℚ) * (len : ℚ) * sl)
      len (runCB sl T0 len c0 k)).2 = _
    rw [ws_callback_single _ _ _ _ s hdata]

theorem solo_evalStep (sr sl T0 start da : ℚ) (F len m pi j : ℕ) (c0 : Channels)
    (k : ℕ) (hsr : 0 < sr) (hsl : sl * sr = 1) (hT0 : 0 < T0) (hF : 0 < F)
    (hlen : 0 < len) (hstart : start = T0 + (j : ℚ) * (len : ℚ) * sl)
    (hinv : soloInv sr sl T0 start da F len m pi j c0 k) :
    soloInv sr sl T0 start da F len m pi j c0 (k + 1) ∧
    segsAt sl T0 len c0 k = soloSegs len F j k := by
  obtain ⟨hsr', hsl', hpe', hphase⟩ := hinv
  have hslpos : 0 < sl := by nlinarith
  have hlenQ : (0 : ℚ) < (len : ℚ) := by exact_mod_cast hlen
  have hstartpos : 0 < start := by
    rw [hstart]
    have h1 : (0 : ℚ) ≤ (j : ℚ) * (len : ℚ) * sl :=
      mul_nonneg (mul_nonneg (Nat.cast_nonneg j) (Nat.cast_nonneg len)) hslpos.le
    linarith
  unfold soloInv
  rcases hphase with ⟨hk, hdata⟩ | ⟨hjk, hklt, hdata⟩ | ⟨hjk, hkge, da2, hdata⟩
  · by_cases hkj : k < j
    · -- before the boundary: the sound is not yet due, nothing happens
      obtain ⟨hrun, hsegs⟩ := runCB_succ sl T0 len c0 k _ hdata
      rw [hsr', hsl', hpe'] at hrun hsegs
      have hnd : (T0 + (k : ℚ) * (len : ℚ) * sl) + sl * (len : ℚ) ≤ start := by
        rw [hstart]
        have hkj' : (k : ℚ) + 1 ≤ (j : ℚ) := by exact_mod_cast hkj
        nlinarith [mul_le_mul_of_nonneg_right hkj'
          (mul_nonneg hlenQ.le hslpos.le)]
      have hfz := notDue_frozen sr sl (T0 + (k : ℚ) * (len : ℚ) * sl) len
        (soloChanAt F start da 0 m pi) 0 ⟨(F : ℤ), start, 0⟩ rfl rfl rfl
        (by show (0 : ℤ) < (F : ℤ); exact_mod_cast hF) hstartpos hnd
      rw [hfz] at hrun hsegs
      refine ⟨⟨?_, ?_, ?_, Or.inl ⟨by omega, ?_⟩⟩, ?_⟩
      · rw [hrun]; exact hsr'
      · rw [hrun]; exact hsl'
      · rw [hrun]
      · rw [hrun]
      · rw [hsegs]
        unfold soloSegs
        rw [if_pos hkj]
    · -- k = j: the boundary callback
      have hkj2 : k = j := le_antisymm hk (not_lt.1 hkj)
      subst hkj2
      obtain ⟨hrun, hsegs⟩ := runCB_succ sl T0 len c0 k _ hdata
      rw [hsr', hsl', hpe'] at hrun hsegs
      have hbs : T0 + (k : ℚ) * (len : ℚ) * sl = start := hstart.symm
      rw [hbs] at hrun hsegs
      have hSP := startPhase_boundary sr sl len (F : ℤ) start da 0 hslpos hlen
        hstartpos
      by_cases hfin : (F : ℤ) ≤ 0 + (len : ℤ)
      · have hcs := chanStep_solo_mix_done sr sl start len F m pi start da
          (start + ((F : ℤ) : ℚ) * sl) 0 true 0 hlen hSP (Or.inr rfl)
          (by exact_mod_cast hF) hfin
        rw [hcs] at hrun hsegs
        have hgeN : F ≤ (k + 1 - k) * len := by
          have h1 : k + 1 - k = 1 := by omega
          rw [h1, one_mul]
          have h2 : (F : ℤ) ≤ (len : ℤ) := by omega
          exact_mod_cast h2
        refine ⟨⟨?_, ?_, ?_, Or.inr (Or.inr ⟨by omega, hgeN,
          start + ((F : ℤ) : ℚ) * sl, ?_⟩)⟩, ?_⟩
        · rw [hrun]; exact hsr'
        · rw [hrun]; exact hsl'
        · rw [hrun]
        · rw [hrun]
        · rw [hsegs]
          unfold soloSegs
          rw [if_neg (lt_irrefl k)]
          rw [if_pos (by rw [Nat.sub_self, Nat.zero_mul]; exact hF)]
          have hc1 : ((F : ℤ) - 0).toNat = min len (F - (k - k) * len) := by
            rw [Nat.sub_self, Nat.zero_mul, Nat.sub_zero]
            omega
          have hc2 : (((k - k) * len : ℕ) : ℤ) = (0 : ℤ) := by
            rw [Nat.sub_self]
            norm_num
          rw [hc1, ← hc2]
      · have hcs := chanStep_solo_mix_part sr sl start len F m pi start da
          (start + ((F : ℤ) : ℚ) * sl) 0 true 0 hlen hSP (Or.inr rfl)
          (by omega)
        rw [hcs] at hrun hsegs
        have hltN : (k + 1 - k) * len < F := by
          have h1 : k + 1 - k = 1 := by omega
          rw [h1, one_mul]
          have h2 : (len : ℤ) < (F : ℤ) := by omega
          exact_mod_cast h2
        refine ⟨⟨?_, ?_, ?_, Or.inr (Or.inl ⟨by omega, hltN, ?_⟩)⟩, ?_⟩
        · rw [hrun]; exact hsr'
        · rw [hrun]; exact hsl'
        · rw [hrun]
        · rw [hrun]
          have he : ((len : ℤ) - 0 + 0) = (((k + 1 - k) * len : ℕ) : ℤ) := by
            have h1 : k + 1 - k = 1 := by omega
            rw [h1]
            push_cast
            ring
          rw [he]
        · rw [hsegs]
          unfold soloSegs
          rw [if_neg (lt_irrefl k)]
          rw [if_pos (by rw [Nat.sub_self, Nat.zero_mul]; exact hF)]
          have hc1 : (len : ℕ) = min len (F - (k - k) * len) := by
            rw [Nat.sub_self, Nat.zero_mul, Nat.sub_zero]
            omega
          have hc2 : (((k - k) * len : ℕ) : ℤ) = (0 : ℤ) := by
            rw [Nat.sub_self]
            norm_num
          rw [← hc1, ← hc2]
  · -- after the boundary, still consuming: offset = (k−j)·len > 0
    obtain ⟨hrun, hsegs⟩ := runCB_succ sl T0 len c0 k _ hdata
    rw [hsr', hsl', hpe'] at hrun hsegs
    have hoffpos : (0 : ℤ) < (((k - j) * len : ℕ) : ℤ) := by
      have h1 : 0 < (k - j) * len := Nat.mul_pos (by omega) hlen
      exact_mod_cast h1
    have hSP := startPhase_started sr sl (T0 + (k : ℚ) * (len : ℚ) * sl) len (F : ℤ)
      start (start + ((F : ℤ) : ℚ) * sl) (((k - j) * len : ℕ) : ℤ) false 0
      (by omega)
    by_cases hfin : (F : ℤ) ≤ (((k - j) * len : ℕ) : ℤ) + (len : ℤ)
    · have hcs := chanStep_solo_mix_done sr sl (T0 + (k : ℚ) * (len : ℚ) * sl) len
        F m pi start (start + ((F : ℤ) : ℚ) * sl) (start + ((F : ℤ) : ℚ) * sl)
        (((k - j) * len : ℕ) : ℤ) false 0 hlen hSP (Or.inl hoffpos)
        (by exact_mod_cast hklt) hfin
      rw [hcs] at hrun hsegs
      have hfinN : F ≤ (k + 1 - j) * len := by
        have h1 : k + 1 - j = (k - j) + 1 := by omega
        rw [h1, add_one_mul]
        exact_mod_cast hfin
      refine ⟨⟨?_, ?_, ?_, Or.inr (Or.inr ⟨by omega, hfinN,
        start + ((F : ℤ) : ℚ) * sl, ?_⟩)⟩, ?_⟩
      · rw [hrun]; exact hsr'
      · rw [hrun]; exact hsl'
      · rw [hrun]
      · rw [hrun]
      · rw [hsegs]
        unfold soloSegs
        rw [if_neg (by omega : ¬(k < j))]
        rw [if_pos hklt]
        have hc1 : ((F : ℤ) - (((k - j) * len : ℕ) : ℤ)).toNat =
            min len (F - (k - j) * len) := by omega
        rw [hc1]
    · have hcs := chanStep_solo_mix_part sr sl (T0 + (k : ℚ) * (len : ℚ) * sl) len
        F m pi start (start + ((F : ℤ) : ℚ) * sl) (start + ((F : ℤ) : ℚ) * sl)
        (((k - j) * len : ℕ) : ℤ) false 0 hlen hSP (Or.inl hoffpos)
        (by omega)
      rw [hcs] at hrun hsegs
      have hkltN : (k + 1 - j) * len < F := by
        have h1 : k + 1 - j = (k - j) + 1 := by omega
        rw [h1, add_one_mul]
        have h2 : (((k - j) * len : ℕ) : ℤ) + (len : ℤ) < (F : ℤ) := by omega
        exact_mod_cast h2
      refine ⟨⟨?_, ?_, ?_, Or.inr (Or.inl ⟨by omega, hkltN, ?_⟩)⟩, ?_⟩
      · rw [hrun]; exact hsr'
      · rw [hrun]; exact hsl'
      · rw [hrun]
      · rw [hrun]
        have he : ((len : ℤ) - 0 + (((k - j) * len : ℕ) : ℤ)) =
            (((k + 1 - j) * len : ℕ) : ℤ) := by
          have h1 : k + 1 - j = (k - j) + 1 := by omega
          rw [h1]
          push_cast
          ring
        rw [he]
      · rw [hsegs]
        unfold soloSegs
        rw [if_neg (by omega : ¬(k < j))]
        rw [if_pos hklt]
        have hc1 : (len : ℕ) = min len (F - (k - j) * len) := by
          have h2 : (((k - j) * len : ℕ) : ℤ) + (len : ℤ) < (F : ℤ) := by omega
          have h3 : (k - j) * len + len < F := by exact_mod_cast h2
          omega
        rw [← hc1]
  · -- the sound has been freed: the channel stays idle
    obtain ⟨hrun, hsegs⟩ := runCB_succ sl T0 len c0 k _ hdata
    rw [hsr', hsl', hpe'] at hrun hsegs
    have hcs := chanStep_empty sr sl (T0 + (k : ℚ) * (len : ℚ) * sl) len
      (deadChan m pi da2) false 0 rfl (headSlot_deadChan m pi da2)
    rw [hcs] at hrun hsegs
    have hge : F ≤ (k + 1 - j) * len := by
      have h1 : k - j ≤ k + 1 - j := by omega
      exact le_trans hkge (Nat.mul_le_mul_right len h1)
    refine ⟨⟨?_, ?_, ?_, Or.inr (Or.inr ⟨by omega, hge,
        (T0 + (k : ℚ) * (len : ℚ) * sl) + sl * (len : ℚ), ?_⟩)⟩, ?_⟩
    · rw [hrun]; exact hsr'
    · rw [hrun]; exact hsl'
    · rw [hrun]
    · rw [hrun]; rfl
    · rw [hsegs]
      unfold soloSegs
      rw [if_neg (by omega : ¬(k < j))]
      rw [if_neg (by omega : ¬((k - j) * len < F))]

/-- C4: a sound of `F` frames alone on a channel, scheduled exactly at
the boundary of callback buffer `j` (contiguous buffers of `len` frames
starting at `T0`), contributes exactly `F` frames of mixed output:
nothing before callback `j`; in callback `j + t` (while `t·len < F`) one
segment adding samples `t·len, …` once each into consecutive output
frames starting at frame 0 of that buffer (so sample `s` lands at global
output frame `j·len + s`); nothing from the `F`-th frame on; the total
over the first `K` callbacks is exactly `F` once `K` covers the sound;
and after the sound is exhausted the slot is freed (all slots empty,
consumer index advanced). -/
theorem C4_roundtrip (sr sl T0 da start : ℚ) (F len m pi j : ℕ) (c0 : Channels)
    (hsr : 0 < sr) (hsl : sl * sr = 1) (hT0 : 0 < T0) (hF : 0 < F)
    (hlen : 0 < len) (hstart : start = T0 + (j : ℚ) * (len : ℚ) * sl)
    (hc0 : c0 = soloSet sr sl F start da m pi) :
    (∀ k, k < j → segsAt sl T0 len c0 k = [[]]) ∧
    (∀ t, t * len < F → segsAt sl T0 len c0 (j + t) =
      [[⟨0, ((t * len : ℕ) : ℤ), min len (F - t * len)⟩]]) ∧
    (∀ t, F ≤ t * len → segsAt sl T0 len c0 (j + t) = [[]]) ∧
    (∀ K, j + F / len + 1 ≤ K → totalCnt sl T0 len c0 K = F) ∧
    (∀ t, F ≤ t * len → ∃ da2,
      (runCB sl T0 len c0 (j + t)).data = [deadChan m pi da2]) := by
  have key : ∀ k, soloInv sr sl T0 start da F len m pi j c0 k := by
    intro k
    induction k with
    | zero =>
      refine ⟨?_, ?_, ?_, Or.inl ⟨Nat.zero_le j, ?_⟩⟩ <;> rw [hc0] <;> rfl
    | succ k ih =>
      exact (solo_evalStep sr sl T0 start da F len m pi j c0 k hsr hsl hT0 hF
        hlen hstart ih).1
  have segsFormula : ∀ k, segsAt sl T0 len c0 k = soloSegs len F j k := fun k =>
    (solo_evalStep sr sl T0 start da F len m pi j c0 k hsr hsl hT0 hF hlen
      hstart (key k)).2
  refine ⟨?_, ?_, ?_, ?_, ?_⟩
  · intro k hk
    rw [segsFormula k]
    unfold soloSegs
    rw [if_pos hk]
  · intro t ht
    rw [segsFormula (j + t)]
    unfold soloSegs
    rw [if_neg (by omega : ¬(j + t < j))]
    have hjd : j + t - j = t := by omega
    rw [hjd, if_pos ht]
  · intro t ht
    rw [segsFormula (j + t)]
    unfold soloSegs
    rw [if_neg (by omega : ¬(j + t < j))]
    have hjd : j + t - j = t := by omega
    rw [hjd, if_neg (by omega : ¬(t * len < F))]
  · have tc : ∀ d, totalCnt sl T0 len c0 (j + d) = min F (d * len) := by
      intro d
      induction d with
      | zero =>
        have hz : ∀ k ∈ Finset.range j, cbCnt (segsAt sl T0 len c0 k) = 0 := by
          intro k hk
          rw [segsFormula k]
          unfold soloSegs
          rw [if_pos (Finset.mem_range.1 hk)]
          rfl
        unfold totalCnt
        rw [Nat.add_zero, Nat.zero_mul, Nat.min_zero]
        exact Finset.sum_eq_zero hz
      | succ d ih =>
        unfold totalCnt at ih ⊢
        rw [show j + (d + 1) = (j + d) + 1 by omega, Finset.sum_range_succ, ih]
        rw [segsFormula (j + d)]
        unfold soloSegs
        rw [if_neg (by omega : ¬(j + d < j))]
        have hjd : j + d - j = d := by omega
        rw [hjd]
        by_cases hd : d * len < F
        · rw [if_pos hd]
          have hcb : cbCnt [[⟨0, ((d * len : ℕ) : ℤ), min len (F - d * len)⟩]] =
              min len (F - d * len) := by
            unfold cbCnt segCnt
            simp
          rw [hcb]
          have h1 : (d + 1) * len = d * len + len := by ring
          rw [h1]
          omega
        · rw [if_neg hd]
          have hcb : cbCnt ([[]] : List (List MixSeg)) = 0 := rfl
          rw [hcb]
          have h1 : (d + 1) * len = d * len + len := by ring
          rw [h1]
          omega
    intro K hK
    have hK' : j + (F / len + 1) ≤ K := by rw [← Nat.add_assoc]; exact hK
    have hjK : j ≤ K := le_trans (Nat.le_add_right _ _) hK'
    obtain ⟨d, rfl⟩ : ∃ d, K = j + d := ⟨K - j, by omega⟩
    rw [tc d]
    have hd : F / len + 1 ≤ d := Nat.le_of_add_le_add_left hK'
    have h2 : (F / len + 1) * len ≤ d * len := Nat.mul_le_mul_right len hd
    have h4 : F / len * len + F % len = F := Nat.div_add_mod' F len
    have h5 : F % len < len := Nat.mod_lt F hlen
    rw [add_one_mul] at h2
    have hFle : F ≤ d * len := by omega
    rw [Nat.min_eq_left hFle]
  · intro t ht
    rcases (key (j + t)).2.2.2 with ⟨hk, _⟩ | ⟨_, hlt, _⟩ | ⟨_, _, da2, hdata⟩
    · have ht0 : t = 0 := by omega
      subst ht0
      rw [Nat.zero_mul] at ht
      omega
    · have hjd : j + t - j = t := by omega
      rw [hjd] at hlt
      omega
    · exact ⟨da2, hdata⟩

/-- Witness for `C4_roundtrip` at a concrete input: a 3-frame sound,
buffers of 2 frames from `T0 = 1` at samplerate 1, scheduled at the
boundary of callback 1 (instant 3): callback 0 mixes nothing, callback 1
mixes samples 0–1, callback 2 mixes sample 2, callback 3 mixes nothing,
the total is 3, and the slot is freed. -/
theorem C4_roundtrip_witness :
    ((0 : ℚ) < 1 ∧ (1 : ℚ) * 1 = 1 ∧ (0 : ℚ) < 1 ∧ 0 < 3 ∧ 0 < 2 ∧
      (3 : ℚ) = 1 + ((1 : ℕ) : ℚ) * ((2 : ℕ) : ℚ) * 1) ∧
    segsAt 1 1 2 (soloSet 1 1 3 3 0 0 0) 0 = [[]] ∧
    segsAt 1 1 2 (soloSet 1 1 3 3 0 0 0) 1 =
      [[⟨0, ((0 * 2 : ℕ) : ℤ), min 2 (3 - 0 * 2)⟩]] ∧
    segsAt 1 1 2 (soloSet 1 1 3 3 0 0 0) 2 =
      [[⟨0, ((1 * 2 : ℕ) : ℤ), min 2 (3 - 1 * 2)⟩]] ∧
    segsAt 1 1 2 (soloSet 1 1 3 3 0 0 0) 3 = [[]] ∧
    totalCnt 1 1 2 (soloSet 1 1 3 3 0 0 0) 3 = 3 ∧
    (∃ da2, (runCB 1 1 2 (soloSet 1 1 3 3 0 0 0) 3).data = [deadChan 0 0 da2]) := by
  have h := C4_roundtrip 1 1 1 0 3 3 2 0 0 1 (soloSet 1 1 3 3 0 0 0)
    (by norm_num) (by norm_num) (by norm_num) (by norm_num) (by norm_num)
    (by norm_num) rfl
  exact ⟨⟨by norm_num, by norm_num, by norm_num, by norm_num, by norm_num,
      by norm_num⟩,
    h.1 0 (by norm_num), h.2.1 0 (by norm_num), h.2.1 1 (by norm_num),
    h.2.2.1 2 (by norm_num), h.2.2.2.1 3 (by norm_num),
    h.2.2.2.2 2 (by norm_num)⟩

/-- C2: across a callback invocation, per channel: (a) the well-formedness
invariant `0 ≤ consumedFrames ≤ frameCount` of every occupied slot is
preserved; (b) the slot array evolves monotonically — a slot occupied
after the callback was occupied before by the same sound (same length
and start) with a smaller-or-equal offset, so `consumedFrames` is
non-decreasing and the consumer never fills an empty slot (hence a
cleared slot can only be refilled by a later producer enqueue); (c) a
head sound whose offset has reached `frameCount` has its slot cleared by
the callback. -/
theorem C2_offset_invariants (sr sl bs : ℚ) (len : ℕ) (s : Sounds) (ss : Bool)
    (pe : ℤ) (hsr : 0 < sr) (hsl : sl * sr = 1) (hWF : WF s) (hlen : 0 < len) :
    WF (chanStep sr sl bs len s ss pe).s ∧
    Mono s.data (chanStep sr sl bs len s ss pe).s.data ∧
    (s.paused = false → ∀ t, headSlot s = some t → t.slen ≤ t.offset →
      (chanStep sr sl bs len s ss pe).s.data.get? s.consumer_index = some none) := by
  have hlt : (0 : ℤ) < (len : ℤ) := by exact_mod_cast hlen
  by_cases hp : s.paused = true
  · unfold chanStep
    rw [if_pos hp]
    refine ⟨hWF, Mono_refl _, fun hpf => ?_⟩
    rw [hpf] at hp
    cases hp
  · unfold chanStep
    rw [if_neg hp]
    by_cases hh : headSlot s = none
    · rw [if_pos hh]
      obtain ⟨hW, hM⟩ := chanLoop_inv sr sl bs len hsr hsl (s.data.length + 1)
        ⟨{ s with done_at := bs + sl * (len : ℚ) }, 0, 0, ss, pe, []⟩ hWF
        (le_refl 0) (Int.natCast_nonneg len) (le_refl 0) (Int.natCast_nonneg len)
      refine ⟨hW, hM, fun _ t ht _ => ?_⟩
      rw [hh] at ht
      cases ht
    · rw [if_neg hh]
      obtain ⟨hW, hM⟩ := chanLoop_inv sr sl bs len hsr hsl (s.data.length + 1)
        ⟨s, 0, 0, ss, pe, []⟩ hWF
        (le_refl 0) (Int.natCast_nonneg len) (le_refl 0) (Int.natCast_nonneg len)
      refine ⟨hW, hM, fun hpf t ht hdone => ?_⟩
      have hci : s.consumer_index < s.data.length :=
        lget_lt_length _ _ _ (headSlot_some ht)
      have hstep : chanLoop sr sl bs len (s.data.length + 1) ⟨s, 0, 0, ss, pe, []⟩ =
          chanLoop sr sl bs len s.data.length
            (loopBody sr sl bs len ⟨s, 0, 0, ss, pe, []⟩ t) := by
        conv_lhs => unfold chanLoop
        rw [ht]
        dsimp only
        rw [if_pos hlt]
      have hbody : loopBody sr sl bs len ⟨s, 0, 0, ss, pe, []⟩ t =
          ⟨freeHead { s with done_at :=
              (startPhase sr sl bs len t 0 0 ss pe s.done_at).da },
            (startPhase sr sl bs len t 0 0 ss pe s.done_at).outi,
            (startPhase sr sl bs len t 0 0 ss pe s.done_at).zp,
            (startPhase sr sl bs len t 0 0 ss pe s.done_at).ss,
            (startPhase sr sl bs len t 0 0 ss pe s.done_at).pe, []⟩ := by
        unfold loopBody
        dsimp only
        rw [if_neg (fun hc => absurd hc.2 (not_lt.2 hdone)), if_pos hdone]
      obtain ⟨⟨hpz0, hpz1⟩, hpo0, hpo1⟩ :=
        startPhase_bounds sr sl bs len t 0 0 ss pe s.done_at hsr hsl
          (le_refl 0) (Int.natCast_nonneg len) (le_refl 0) (Int.natCast_nonneg len)
      have hW1 : ∀ o ∈ (freeHead { s with done_at :=
          (startPhase sr sl bs len t 0 0 ss pe s.done_at).da }).data,
          soundOK o = true := by
        dsimp only [freeHead]
        intro o hm
        rcases lmem_set _ _ _ _ hm with ho | ho
        · rw [ho]; rfl
        · exact hWF o ho
      obtain ⟨_, _, _, hNone⟩ := chanLoop_inv sr sl bs len hsr hsl s.data.length
        (loopBody sr sl bs len ⟨s, 0, 0, ss, pe, []⟩ t)
        (by rw [hbody]; exact hW1)
        (by rw [hbody]; exact hpo0) (by rw [hbody]; exact hpo1)
        (by rw [hbody]; exact hpz0) (by rw [hbody]; exact hpz1)
      show (chanLoop sr sl bs len (s.data.length + 1)
        ⟨s, 0, 0, ss, pe, []⟩).s.data.get? s.consumer_index = some none
      rw [hstep]
      apply hNone
      rw [hbody]
      dsimp only [freeHead]
      exact lget_set_self _ _ _ hci

/-- Witness for `C2_offset_invariants` at a concrete input: `c2chan`
holds one sound with `offset = 4` of 10 frames, well formed; parameters
`sr = 1`, `sl = 1`, `len = 4`. -/
theorem C2_offset_invariants_witness :
    ((0 : ℚ) < 1 ∧ (1 : ℚ) * 1 = 1 ∧ WF c2chan ∧ 0 < 4) ∧
    (WF (chanStep 1 1 10 4 c2chan false 0).s ∧
      Mono c2chan.data (chanStep 1 1 10 4 c2chan false 0).s.data ∧
      (c2chan.paused = false → ∀ t, headSlot c2chan = some t → t.slen ≤ t.offset →
        (chanStep 1 1 10 4 c2chan false 0).s.data.get? c2chan.consumer_index =
          some none)) :=
  ⟨⟨by norm_num, by norm_num, by unfold WF; decide, by norm_num⟩,
    C2_offset_invariants 1 1 10 4 c2chan false 0 (by norm_num) (by norm_num)
      (by unfold WF; decide) (by norm_num)⟩

/-- C5: `ws_play` with no channel specified (`channel < 0`) scans only
the one-shot channels (the first half), skips paused channels and
channels whose producer slot is occupied, and among the remaining
channels picks one with the smallest `done_at` (enqueuing the new sound
there); if no channel qualifies it sets the domain error to
`NO_CHANNELS`, returns the failure sentinel −1, and mutates no queue
slot or index of any channel (the returned state differs from the input
only in `weber_error`). -/
theorem C5_auto_select (now playat pa_now : ℚ) (L : ℤ) (channel : ℤ)
    (st : WsState) (hch : channel < 0) :
    ((∀ i, ¬ Qualifies st.channels i) →
      ws_play now playat channel L pa_now st =
        some ({ st with weber_error := NO_CHANNELS }, -1)) ∧
    ((∃ i, Qualifies st.channels i) →
      ∃ i s, Qualifies st.channels i ∧ st.channels.data.get? i = some s ∧
        (∀ i' s', Qualifies st.channels i' → st.channels.data.get? i' = some s' →
          s.done_at ≤ s'.done_at) ∧
        ws_play now playat channel L pa_now st =
          some ({ st with channels := { st.channels with
            data := st.channels.data.set i
              (enqueueAt s (newTimedSound L ((pa_now - now) + playat))) } },
            (i : ℤ))) := by
  constructor
  · intro hno
    have hskip : ∀ p ∈ idxd 0 (st.channels.data.take (st.channels.data.length / 2)),
        ¬ Ok p.2 := by
      rintro ⟨i, s⟩ hm hok
      exact hno i ((qualifies_iff _ _).2 ⟨s, hm, hok⟩)
    simp only [ws_play]
    rw [if_pos hch, selectLoop_skip _ _ hskip]
    rw [if_pos hch]
  · rintro ⟨i0, hq0⟩
    have hex : ∃ p ∈ idxd 0 (st.channels.data.take (st.channels.data.length / 2)),
        Ok p.2 := by
      rcases (qualifies_iff _ _).1 hq0 with ⟨s, hm, hok⟩
      exact ⟨(i0, s), hm, hok⟩
    have hne := selectLoop_hit _ channel none hex
    rcases selectLoop_cases
        (idxd 0 (st.channels.data.take (st.channels.data.length / 2)))
        (channel, none) with heq | ⟨i, s, hm, hok, he⟩
    · rw [heq] at hne
      exact absurd rfl hne
    · have hq : Qualifies st.channels i := (qualifies_iff _ _).2 ⟨s, hm, hok⟩
      have hget : st.channels.data.get? i = some s := by
        rcases (idxd_mem _ _ _ _).1 hm with ⟨k, hk, hg⟩
        have hik : i = k := by omega
        subst hik
        rwa [lget_take _ _ _ hq.1] at hg
      refine ⟨i, s, hq, hget, ?_, ?_⟩
      · intro i' s' hq' hg'
        rcases (qualifies_iff _ _).1 hq' with ⟨s'', hm'', hok''⟩
        have hg'' : st.channels.data.get? i' = some s'' := by
          rcases (idxd_mem _ _ _ _).1 hm'' with ⟨k, hk, hg2⟩
          have hik : i' = k := by omega
          subst hik
          rwa [lget_take _ _ _ hq'.1] at hg2
        have hss : s'' = s' := by
          rw [hg''] at hg'
          injection hg'
        subst hss
        exact selectLoop_min _ channel none (i', s'') hm'' hok'' s.done_at
          (by rw [he])
      · simp only [ws_play]
        rw [if_pos hch, he]
        dsimp only
        rw [if_neg (not_lt.2 (Int.natCast_nonneg i)), Int.toNat_natCast, hget]

/-- Witness for `C5_auto_select` at a concrete input: `c5st` has one
one-shot channel (index 0) and it is paused, so every call with
`channel < 0` fails with the `NO_CHANNELS` domain error, returns −1 and
leaves the channel set unchanged. -/
theorem C5_auto_select_witness :
    ((-1 : ℤ) < 0 ∧ ¬ Qualifies c5st.channels 0) ∧
    ws_play 0 0 (-1) 7 3 c5st = some ({ c5st with weber_error := NO_CHANNELS }, -1) :=
  ⟨⟨by decide, fun h => by
      rcases h with ⟨_, s, hg, hok, _⟩
      have : s = ⟨[none], true, 0, 0, 0⟩ := by
        have := hg
        injection this with h2
        exact h2.symm
      rw [this] at hok
      cases hok⟩,
    (C5_auto_select 0 0 3 7 (-1) c5st (by decide)).1 (fun i h => by
      rcases h with ⟨hi, s, hg, hok⟩
      have hi0 : i = 0 := by
        have : c5st.channels.data.length = 2 := rfl
        omega
      subst hi0
      have hs : s = ⟨[none], true, 0, 0, 0⟩ := by
        injection hg with h2
        exact h2.symm
      rw [hs] at hok
      cases hok.1)⟩

theorem headSlot_enqueueAt (s : Sounds) (snd : TimedSound)
    (hfree : prodSlot s = none) {t : TimedSound} (hh : headSlot s = some t) :
    headSlot (enqueueAt s snd) = some t := by
  have hget := headSlot_some hh
  have hne : s.producer_index ≠ s.consumer_index := by
    intro he
    rw [prodSlot, he, hget] at hfree
    simp [Option.join] at hfree
  unfold headSlot enqueueAt
  dsimp only
  rw [lget_set_ne _ _ _ _ hne, hget]
  rfl

/-- C6: `ws_play_next` on a paused streaming channel with an in-flight
sound at the consumer slot force-completes that sound
(`consumedFrames := frameCount`) and clears the pause flag before the
new sound is considered for enqueue: whatever the enqueue outcome, the
resulting channel is unpaused and its head sound has
`offset = slen` (lines 261–265 run before the occupancy check of
line 268). -/
theorem C6_force_complete (now pa_now : ℚ) (L : ℤ) (channel : ℕ) (st : WsState)
    (s0 : Sounds) (ps : TimedSound)
    (hs : st.channels.data.get? (st.channels.data.length / 2 + channel) = some s0)
    (hp : s0.paused = true) (hh : headSlot s0 = some ps) :
    ∃ st' r, ws_play_next now channel L pa_now st = some (st', r) ∧
      ∃ s1, st'.channels.data.get? (st.channels.data.length / 2 + channel) = some s1 ∧
        s1.paused = false ∧ headSlot s1 = some { ps with offset := ps.slen } := by
  have hci := headSlot_some hh
  have hcia : s0.consumer_index < s0.data.length := lget_lt_length _ _ _ hci
  have hch : st.channels.data.length / 2 + channel < st.channels.data.length :=
    lget_lt_length _ _ _ hs
  have hhead2 : headSlot { s0 with
      data := s0.data.set s0.consumer_index (some { ps with offset := ps.slen }),
      paused := false } = some { ps with offset := ps.slen } := by
    unfold headSlot
    dsimp only
    rw [lget_set_self _ _ _ hcia]
    rfl
  simp only [ws_play_next]
  rw [hs]
  dsimp only
  rw [hp, if_pos rfl, hh]
  dsimp only
  by_cases hfree : prodSlot { s0 with
      data := s0.data.set s0.consumer_index (some { ps with offset := ps.slen }),
      paused := false } = none
  · rw [if_pos hfree]
    refine ⟨_, _, rfl,
      enqueueAt { s0 with
        data := s0.data.set s0.consumer_index (some { ps with offset := ps.slen }),
        paused := false } (newTimedSound L (-1)), ?_, rfl, ?_⟩
    · dsimp only
      rw [lget_set_self _ _ _ (by simpa using hch)]
    · exact headSlot_enqueueAt _ _ hfree hhead2
  · rw [if_neg hfree]
    refine ⟨_, _, rfl,
      { s0 with
        data := s0.data.set s0.consumer_index (some { ps with offset := ps.slen }),
        paused := false }, ?_, rfl, hhead2⟩
    dsimp only
    rw [lget_set_self _ _ _ (by simpa using hch)]

/-- Witness for `C6_force_complete`: streaming channel 0 of `c6st` is
paused with an in-flight sound at `offset = 10`, `slen = 50`; after
`ws_play_next` the channel is unpaused and the head sound's offset is
50. -/
theorem C6_force_complete_witness :
    (c6st.channels.data.get? (c6st.channels.data.length / 2 + 0) =
        some ⟨[some ⟨50, -1, 10⟩, none], true, 0, 1, 0⟩) ∧
    (∃ st' r, ws_play_next 0 0 7 3 c6st = some (st', r) ∧
      ∃ s1, st'.channels.data.get? (c6st.channels.data.length / 2 + 0) = some s1 ∧
        s1.paused = false ∧ headSlot s1 = some ⟨50, -1, 50⟩) :=
  ⟨by decide,
    C6_force_complete 0 3 7 0 c6st ⟨[some ⟨50, -1, 10⟩, none], true, 0, 1, 0⟩
      ⟨50, -1, 10⟩ (by decide) rfl rfl⟩

/-- C7: `ws_play_next` on an unpaused streaming channel.  If the producer
slot is empty, it enqueues the new sound with the ASAP start sentinel
(start = −1) and returns the predicted finish instant
`(freeAt + frameCount·frameDuration) − (streamNow − callerNow)`; if the
producer slot is occupied it returns the sentinel −1 and leaves the
engine state (all queue slots and indices) unchanged. -/
theorem C7_play_next_backpressure (now pa_now : ℚ) (L : ℤ) (channel : ℕ)
    (st : WsState) (s0 : Sounds)
    (hs : st.channels.data.get? (st.channels.data.length / 2 + channel) = some s0)
    (hp : s0.paused = false) :
    (prodSlot s0 = none →
      ws_play_next now channel L pa_now st =
        some ({ st with channels := { st.channels with
            data := st.channels.data.set (st.channels.data.length / 2 + channel)
              (enqueueAt s0 (newTimedSound L (-1))) } },
          (s0.done_at + (L : ℚ) * st.channels.samplelen) - (pa_now - now))) ∧
    (prodSlot s0 ≠ none → ws_play_next now channel L pa_now st = some (st, -1)) := by
  constructor
  · intro hfree
    simp only [ws_play_next]
    rw [hs]
    dsimp only
    rw [hp]
    simp only [Bool.false_eq_true, if_false]
    rw [if_pos hfree]
    simp only [Option.some.injEq, Prod.mk.injEq]
    refine ⟨trivial, ?_⟩
    ring
  · intro hocc
    simp only [ws_play_next]
    rw [hs]
    dsimp only
    rw [hp]
    simp only [Bool.false_eq_true, if_false]
    rw [if_neg hocc, lset_get_self _ _ _ hs]

/-- Witness for `C7_play_next_backpressure`: streaming channel 0 of
`c7st` (unpaused, empty producer slot, `done_at = 20`); the call
enqueues and returns `(20 + 7·1) − (3 − 2) = 26`. -/
theorem C7_play_next_witness :
    (c7st.channels.data.get? (c7st.channels.data.length / 2 + 0) =
        some ⟨[some ⟨50, -1, 10⟩, none], false, 0, 1, 20⟩ ∧
      prodSlot (⟨[some ⟨50, -1, 10⟩, none], false, 0, 1, 20⟩ : Sounds) = none) ∧
    ws_play_next 2 0 7 3 c7st =
      some ({ c7st with channels := { c7st.channels with
          data := c7st.channels.data.set (c7st.channels.data.length / 2 + 0)
            (enqueueAt ⟨[some ⟨50, -1, 10⟩, none], false, 0, 1, 20⟩
              (newTimedSound 7 (-1))) } },
        (((⟨[some ⟨50, -1, 10⟩, none], false, 0, 1, 20⟩ : Sounds).done_at +
          ((7 : ℤ) : ℚ) * c7st.channels.samplelen) - (3 - 2))) :=
  ⟨⟨by decide, rfl⟩,
    (C7_play_next_backpressure 2 3 7 0 c7st
      ⟨[some ⟨50, -1, 10⟩, none], false, 0, 1, 20⟩ (by decide) rfl).1 rfl⟩

/-- Witness for `C10_null_deref`: the concrete state `c10st` (streaming
channel 0 paused, consumer slot empty) crashes. -/
theorem C10_null_deref_witness :
    (c10st.channels.data.get? (c10st.channels.data.length / 2 + 0) =
        some ⟨[none, none], true, 0, 0, 0⟩ ∧
      (⟨[none, none], true, 0, 0, 0⟩ : Sounds).paused = true ∧
      headSlot (⟨[none, none], true, 0, 0, 0⟩ : Sounds) = none) ∧
    ws_play_next 0 0 7 3 c10st = none :=
  ⟨⟨by decide, rfl, rfl⟩,
    C10_null_deref 0 3 7 0 c10st ⟨[none, none], true, 0, 0, 0⟩ (by decide) rfl rfl⟩

end Weber
